import Mathlib

/-!
Verification of the asynchronous readiness-polling and mutation-coordination
layer of the ab-test-utils library (src/utils.js and
src/components/legacyComponents.js).

The JavaScript code is single-threaded: all scheduling happens through
`setTimeout` callbacks on one event loop.  We embed it shallowly:

* machine time is a natural number of milliseconds;
* a pending `setTimeout` is a task record carrying its fire time; the event
  loop is a step function that extracts the earliest pending task (FIFO for
  equal fire times, matching timer-queue order) and runs its callback;
* the DOM / external world is abstracted as a boolean-valued function of the
  condition index and the current time (`evalCond i t` is the truthiness of
  condition `i`'s check made at time `t`);
* JavaScript values relevant to `mergeObjects` and to condition validation
  are deep-embedded as inductive types with the JS coercion rules
  (`Object.keys`, property get/set, truthiness, `typeof`) modelled explicitly;
* fallible operations return `Except String` carrying the error message.
-/

set_option maxHeartbeats 1000000

namespace AbTestUtils

/-! ### Generic event-queue helper

`extractMin key l` removes the first element of `l` attaining the minimal
`key`.  Pending timers are kept in creation order, so taking the first
minimal element reproduces the browser timer queue: earliest due timer
first, FIFO among timers due at the same instant. -/

def extractMin {α : Type} (key : α → Nat) : List α → Option (α × List α)
  | [] => none
  | a :: as =>
    match extractMin key as with
    | none => some (a, [])
    | some (m, rest) => if key a ≤ key m then some (a, as) else some (m, a :: rest)

/-! ### JavaScript values and `mergeObjects`

`mergeObjects` appears identically in src/utils.js (lines 23-39) and
src/components/legacyComponents.js (lines 509-525):

```js
const mergeObjects = (target, source) => {
  const merged = target;
  Object.keys(source).forEach((key) => {
    const sourceValue = source[key];
    const targetValue = merged[key];
    const isObject = typeof targetValue === 'object' && !(targetValue instanceof Array);
    if (isObject) {
      merged[key] = mergeObjects(targetValue, sourceValue);
    } else {
      merged[key] = sourceValue;
    }
  });
  return merged;
};
```

The value model covers the JS dynamics the function touches: `Object.keys`
on primitives yields `[]`, on `null`/`undefined` it throws a TypeError;
reading a property of `null`/`undefined` throws a TypeError; the module is
an ES module, hence strict mode, so assigning a property on a primitive
also throws a TypeError. -/

inductive JSVal where
  | vNull
  | vUndefined
  | vBool (b : Bool)
  | vNum (n : Int)
  | vStr (s : String)
  | vArr (elems : List JSVal)
  | vObj (fields : List (String × JSVal))

/-- Model of `Object.keys`. -/
def jsKeys : JSVal → Except String (List String)
  | .vNull => .error "TypeError: Cannot convert undefined or null to object"
  | .vUndefined => .error "TypeError: Cannot convert undefined or null to object"
  | .vObj fields => .ok (fields.map Prod.fst)
  | .vArr elems => .ok ((List.range elems.length).map (fun i => toString i))
  | .vStr s => .ok ((List.range s.length).map (fun i => toString i))
  | _ => .ok []

/-- Model of a JS property read `v[k]`. -/
def jsGet : JSVal → String → Except String JSVal
  | .vNull, _ => .error "TypeError: Cannot read properties of null"
  | .vUndefined, _ => .error "TypeError: Cannot read properties of undefined"
  | .vObj fields, k =>
    .ok (((fields.find? (fun f => decide (f.1 = k))).map Prod.snd).getD .vUndefined)
  | .vArr elems, k =>
    .ok (match k.toNat? with
         | some i => elems.getD i .vUndefined
         | none => .vUndefined)
  | .vStr s, k =>
    .ok (match k.toNat? with
         | some i =>
           if i < s.toList.length then .vStr (String.singleton (s.toList.getD i ' '))
           else .vUndefined
         | none => .vUndefined)
  | _, _ => .ok .vUndefined

/-- Replace the binding of `k` (keeping its position, as JS objects do) or
append a new binding. -/
def setField : List (String × JSVal) → String → JSVal → List (String × JSVal)
  | [], k, v => [(k, v)]
  | (k', v') :: fs, k, v =>
    if k' = k then (k', v) :: fs else (k', v') :: setField fs k v

/-- Model of a strict-mode JS property write `v[k] = x`.  Writes on objects
and on existing array indices succeed; every other write throws a TypeError
in strict mode (array-growing writes are not needed by `mergeObjects` on
object-rooted targets and are modelled as errors as well). -/
def jsSet : JSVal → String → JSVal → Except String JSVal
  | .vObj fields, k, v => .ok (.vObj (setField fields k v))
  | .vArr elems, k, v =>
    match k.toNat? with
    | some i =>
      if i < elems.length then .ok (.vArr (elems.set i v))
      else .error "TypeError: unsupported out-of-range array index assignment"
    | none => .error "TypeError: unsupported array property assignment"
  | _, _, _ => .error "TypeError: Cannot create property on primitive value"

/-- The `isObject` test of `mergeObjects`:
`typeof targetValue === 'object' && !(targetValue instanceof Array)`.
In JS `typeof null === 'object'`, so `null` passes this test. -/
def isObjectNotArray : JSVal → Bool
  | .vNull => true
  | .vObj _ => true
  | _ => false

/-- Shallow embedding of `mergeObjects`, with a recursion-fuel parameter
(the JS recursion is through dynamically read properties, so it is not
structural; any fuel at least the nesting depth of the target gives the JS
behaviour). -/
def mergeObjectsF : Nat → JSVal → JSVal → Except String JSVal
  | 0, _, _ => .error "model: recursion fuel exhausted"
  | fuel + 1, target, source => do
    let keys ← jsKeys source
    keys.foldlM
      (fun merged key => do
        let sourceValue ← jsGet source key
        let targetValue ← jsGet merged key
        if isObjectNotArray targetValue then
          let sub ← mergeObjectsF fuel targetValue sourceValue
          jsSet merged key sub
        else
          jsSet merged key sourceValue)
      target

/-- The body of the `Object.keys(source).forEach` loop of `mergeObjects`,
as a named function (definitionally equal to the lambda inside
`mergeObjectsF (fuel+1)`). -/
def mergeStep (fuel : Nat) (source merged : JSVal) (key : String) :
    Except String JSVal := do
  let sourceValue ← jsGet source key
  let targetValue ← jsGet merged key
  if isObjectNotArray targetValue then
    let sub ← mergeObjectsF fuel targetValue sourceValue
    jsSet merged key sub
  else
    jsSet merged key sourceValue

/-! ### Condition values and the two condition evaluators

The full poller validates conditions with
`createPollingElement.expressionValidator` (legacyComponents.js 543-562),
which throws `Error('Invalid poller expression')` on any falsy condition
and otherwise dispatches on `typeof`.  `pollerLite` instead uses
`evaluateCondition` (legacyComponents.js 705-713), a lookup table with
entries only for `'function'` and `'string'`; for every other `typeof`
(including falsy values such as `null`, `undefined`, `false` and `0`) it
returns `true`.

A condition value is deep-embedded; a predicate condition is modelled by
the truthiness of its result (`func r` stands for a function with
`!!expr.call() = r`); the DOM is abstracted by `dom : String → Bool`
(truthiness of `document.querySelector` for a selector string). -/

inductive CondVal where
  | func (result : Bool)
  | str (s : String)
  | boolean (b : Bool)
  | num (n : Int)
  | null
  | undef

/-- JS `typeof` for condition values. -/
def condTypeof : CondVal → String
  | .func _ => "function"
  | .str _ => "string"
  | .boolean _ => "boolean"
  | .num _ => "number"
  | .null => "object"
  | .undef => "undefined"

/-- JS truthiness of a condition value. -/
def truthyCond : CondVal → Bool
  | .func _ => true
  | .str s => decide (s ≠ "")
  | .boolean b => b
  | .num n => decide (n ≠ 0)
  | .null => false
  | .undef => false

/-- `createPollingElement.expressionValidator` (full poller). -/
def expressionValidator (dom : String → Bool) (expr : CondVal) :
    Except String Bool :=
  if truthyCond expr = false then .error "Invalid poller expression"
  else
    match expr with
    | .func r => .ok r
    | .str s => .ok (dom s)
    | _ => .ok true

/-- `pollerLite`'s `evaluateCondition`: the `types` lookup table has entries
for `'function'` and `'string'` only; `return evaluate ? evaluate() : true`. -/
def evaluateCondition (dom : String → Bool) (condition : CondVal) : Bool :=
  match condition with
  | .func r => r
  | .str s => dom s
  | _ => true

/-! ### The full poller (legacyComponents.js 526-653)

`poller(elements, cb, options)` creates one polling element per condition
and starts it with `poll(settings.wait, settings.multiplier, success,
settings.timeoutCallback)`.  `poll(delay, ...)` records `startedAt` on its
first call, reports a timeout when `maxDuration` is set and
`startedAt + maxDuration < now`, and otherwise schedules a `setTimeout`
after `delay` whose callback evaluates the condition: on truthy it runs the
success callback (which pushes the element and runs `cb()` when the tally
reaches the condition count); on falsy it calls
`poll(delay * multiplier, ...)` again.

The session context carries the option values; the backoff multiplication
`delay * multiplier` on a float multiplier is abstracted as an arbitrary
function `mult : Nat → Nat` on millisecond delays, and
`evalCond i t` abstracts the truthiness of `expressionValidator`'s check of
condition `i` against the DOM as it is at time `t`. -/

structure PollerCtx where
  numConds : Nat
  evalCond : Nat → Nat → Bool
  wait : Nat
  mult : Nat → Nat
  maxDuration : Nat

/-- A pending `setTimeout` created by `poll`: which element it checks, when
it fires, the `delay` it was scheduled with (the callback closes over it to
compute the next backoff delay) and its timer id (`this.winTimeout`). -/
structure PollTask where
  elemIdx : Nat
  fireTime : Nat
  delay : Nat
  timerId : Nat
  deriving Repr, DecidableEq

/-- Per-element mutable state: `this.startedAt` and `this.winTimeout`. -/
structure ElemState where
  startedAt : Option Nat
  winTimeout : Option Nat
  deriving Repr, DecidableEq

/-- State of one `poller` session: the element states, the pending timers,
`successfullyPolledElements` (as element indices, in push order), the list
of elements for which `timeoutCallback(condition)` has been invoked (in
invocation order), the number of `cb()` invocations and the next fresh
timer id. -/
structure PollerState where
  elems : List ElemState
  tasks : List PollTask
  succeededElems : List Nat
  timeoutEvents : List Nat
  cbCount : Nat
  nextId : Nat
  deriving Repr, DecidableEq

/-- The body of `poll(delay, multiplier, successCallback, timeoutCallback)`
run at time `now` for element `i`: set `startedAt` if unset; if the element
exceeded `maxDuration`, invoke the timeout callback and `this.destroy()`
(a `clearTimeout` of the current `winTimeout`); otherwise store a fresh
timer in `this.winTimeout` firing `delay` ms from now. -/
def pollCall (ctx : PollerCtx) (s : PollerState) (i delay now : Nat) :
    PollerState :=
  let e0 := s.elems.getD i { startedAt := none, winTimeout := none }
  let e1 := if e0.startedAt.isNone then { e0 with startedAt := some now } else e0
  let started := e1.startedAt.getD now
  if ctx.maxDuration ≠ 0 ∧ started + ctx.maxDuration < now then
    { s with elems := s.elems.set i e1,
             timeoutEvents := s.timeoutEvents ++ [i],
             tasks := s.tasks.filter
               (fun t => decide (e1.winTimeout ≠ some t.timerId)) }
  else
    { s with elems := s.elems.set i { e1 with winTimeout := some s.nextId },
             tasks := s.tasks ++
               [{ elemIdx := i, fireTime := now + delay, delay := delay,
                  timerId := s.nextId }],
             nextId := s.nextId + 1 }

/-- The `setTimeout` callback scheduled by `poll`: evaluate the condition;
on truthy run the success callback `(pollingElement) => { push; if
(length === elements.length) cb(); }` and stop; on falsy call
`poll(delay * multiplier, ...)` at the current time. -/
def fireTask (ctx : PollerCtx) (s : PollerState) (t : PollTask) : PollerState :=
  if ctx.evalCond t.elemIdx t.fireTime then
    let succ := s.succeededElems ++ [t.elemIdx]
    { s with succeededElems := succ,
             cbCount := if succ.length = ctx.numConds then s.cbCount + 1
                        else s.cbCount }
  else
    pollCall ctx s t.elemIdx (ctx.mult t.delay) t.fireTime

/-- One event-loop turn: run the earliest pending timer, if any. -/
def pollerStep (ctx : PollerCtx) (s : PollerState) : PollerState :=
  match extractMin (fun t => t.fireTime) s.tasks with
  | none => s
  | some (t, rest) => fireTask ctx { s with tasks := rest } t

/-- The synchronous part of `poller(elements, cb, options)`: create a
polling element per condition and call `poll` on each at time `0`. -/
def pollerInit (ctx : PollerCtx) : PollerState :=
  (List.range ctx.numConds).foldl
    (fun s i => pollCall ctx s i ctx.wait 0)
    { elems := List.replicate ctx.numConds { startedAt := none, winTimeout := none },
      tasks := [], succeededElems := [], timeoutEvents := [], cbCount := 0,
      nextId := 0 }

/-- The session after `n` event-loop turns. -/
def pollerRun (ctx : PollerCtx) (n : Nat) : PollerState :=
  (pollerStep ctx)^[n] (pollerInit ctx)

/-- The returned handle's `destroy()`:
`pollingElements.forEach(item => item.destroy())`, i.e. a `clearTimeout`
of every element's current `winTimeout`.  In the single-threaded event
loop this removes every pending timer, whether or not it is already due. -/
def destroyAll (s : PollerState) : PollerState :=
  { s with tasks := s.tasks.filter
             (fun t => !(s.elems.any (fun e => decide (e.winTimeout = some t.timerId)))) }

/-- Reachability invariant of a `poller` session (established by
`pollerInit`, preserved by `pollerStep`). -/
structure PollerInv (ctx : PollerCtx) (s : PollerState) : Prop where
  elems_len : s.elems.length = ctx.numConds
  task_idx_lt : ∀ t ∈ s.tasks, t.elemIdx < ctx.numConds
  task_idx_nodup : (s.tasks.map PollTask.elemIdx).Nodup
  task_id_nodup : (s.tasks.map PollTask.timerId).Nodup
  task_id_lt : ∀ t ∈ s.tasks, t.timerId < s.nextId
  task_active : ∀ t ∈ s.tasks,
    t.elemIdx ∉ s.succeededElems ∧ t.elemIdx ∉ s.timeoutEvents
  active_task : ∀ i < ctx.numConds, i ∉ s.succeededElems →
    i ∉ s.timeoutEvents → ∃ t ∈ s.tasks, t.elemIdx = i
  task_win : ∀ t ∈ s.tasks,
    (s.elems.getD t.elemIdx { startedAt := none, winTimeout := none }).winTimeout
      = some t.timerId
  succ_nodup : s.succeededElems.Nodup
  succ_lt : ∀ i ∈ s.succeededElems, i < ctx.numConds
  timeout_nodup : s.timeoutEvents.Nodup
  timeout_lt : ∀ i ∈ s.timeoutEvents, i < ctx.numConds
  succ_timeout_disjoint : ∀ i ∈ s.succeededElems, i ∉ s.timeoutEvents
  cb_eq : s.cbCount =
    if 0 < ctx.numConds ∧ s.succeededElems.length = ctx.numConds then 1 else 0
  started_zero : ∀ e ∈ s.elems, e.startedAt = some 0
  succ_eval : ∀ i ∈ s.succeededElems, ∃ τ, ctx.evalCond i τ = true
  delay_pos : 1 ≤ ctx.wait → (∀ d, 1 ≤ ctx.mult d) → ∀ t ∈ s.tasks, 1 ≤ t.delay

/-- Termination measure of one pending timer against the shared per-element
bound `D`: positive while the timer can still lead to another scheduling. -/
def taskMeasure (D : Nat) (t : PollTask) : Nat :=
  (D + 2) - min t.fireTime (D + 1)

/-- Total termination measure of a session's pending timers. -/
def stateMeasure (D : Nat) (s : PollerState) : Nat :=
  (s.tasks.map (taskMeasure D)).sum

/-! ### pollerLite (legacyComponents.js 655-748)

`pollerLite(conditions, callback, userOptions)` computes a single deadline
`new Date(getNow() + options.timeout)` once (or `null` when
`options.timeout` is falsy) and starts `pollForCondition(condition, wait,
true)` synchronously for every condition.  `pollForCondition` first stops
silently if the shared deadline has passed, then evaluates the condition:
on truthy it pushes onto `successfulConditions` and runs
`callback(successfulConditions)` when every condition has passed; on falsy
it schedules `pollForCondition(condition, waitTime * multiplier)` after
`skipWait ? 0 : waitTime` ms. -/

structure LiteCtx where
  numConds : Nat
  evalCond : Nat → Nat → Bool
  wait : Nat
  mult : Nat → Nat
  timeout : Nat

/-- A pending `setTimeout` of `pollerLite`: the condition index, the fire
time, and the `waitTime` argument that the scheduled call will receive
(already multiplied by the backoff factor). -/
structure LiteTask where
  idx : Nat
  fireTime : Nat
  waitTime : Nat
  deriving Repr, DecidableEq

/-- State of one `pollerLite` session: `successfulConditions` (as condition
indices in push order; the code pushes the truthy evaluation result — the
lengths agree), the number of `callback` invocations and the pending
timers. -/
structure LiteState where
  successfulConditions : List Nat
  cbCount : Nat
  tasks : List LiteTask
  deriving Repr, DecidableEq

/-- The body of `pollForCondition(condition, waitTime, skipWait)` run at
time `now` for condition `idx`.  The deadline test is the code's
`timeout && isTimedOut()` with `isTimedOut = () => timeout && getNow() >
timeout`, sharing the single session deadline `ctx.timeout` (sessions
start at time `0`). -/
def pollForCondition (ctx : LiteCtx) (s : LiteState)
    (idx waitTime now : Nat) (skipWait : Bool) : LiteState :=
  if ctx.timeout ≠ 0 ∧ ctx.timeout < now then s
  else if ctx.evalCond idx now then
    let succ := s.successfulConditions ++ [idx]
    { s with successfulConditions := succ,
             cbCount := if succ.length = ctx.numConds then s.cbCount + 1
                        else s.cbCount }
  else
    { s with tasks := s.tasks ++
        [{ idx := idx,
           fireTime := now + (if skipWait then 0 else waitTime),
           waitTime := ctx.mult waitTime }] }

/-- One event-loop turn of a `pollerLite` session. -/
def liteStep (ctx : LiteCtx) (s : LiteState) : LiteState :=
  match extractMin (fun t => t.fireTime) s.tasks with
  | none => s
  | some (t, rest) =>
    pollForCondition ctx { s with tasks := rest } t.idx t.waitTime t.fireTime false

/-- The synchronous part of `pollerLite`: `pollForCondition(conditions[i],
wait, true)` for every condition, at time `0`. -/
def liteInit (ctx : LiteCtx) : LiteState :=
  (List.range ctx.numConds).foldl
    (fun s i => pollForCondition ctx s i ctx.wait 0 true)
    { successfulConditions := [], cbCount := 0, tasks := [] }

/-- The `pollerLite` session after `n` event-loop turns. -/
def liteRun (ctx : LiteCtx) (n : Nat) : LiteState :=
  (liteStep ctx)^[n] (liteInit ctx)

/-- Reachability invariant of a `pollerLite` session, with the bound `j`
on the condition indices seen so far (`j = ctx.numConds` once `liteInit`
has started every condition). -/
structure LiteInvAux (ctx : LiteCtx) (j : Nat) (s : LiteState) : Prop where
  succ_nodup : s.successfulConditions.Nodup
  succ_lt : ∀ i ∈ s.successfulConditions, i < j
  task_lt : ∀ t ∈ s.tasks, t.idx < j
  task_idx_nodup : (s.tasks.map LiteTask.idx).Nodup
  task_notsucc : ∀ t ∈ s.tasks, t.idx ∉ s.successfulConditions
  cb_eq : s.cbCount =
    if 0 < ctx.numConds ∧ s.successfulConditions.length = ctx.numConds then 1
    else 0
  succ_eval : ∀ i ∈ s.successfulConditions,
    ∃ τ, ctx.evalCond i τ = true ∧ (ctx.timeout ≠ 0 → τ ≤ ctx.timeout)

/-! ### The mutation observer helpers (legacyComponents.js 756-845)

Elements are abstracted as natural numbers.  `observer.connect` creates one
`MutationObserver` per call; when handed a collection it observes every
element of the collection with that single shared observer and pushes one
`[element, mutationObserver]` pair per element onto the process-wide
`observer.active` registry.  `observer.disconnect` walks `active` and calls
`.disconnect()` on the observer of every pair whose element matches (the
pairs themselves are never removed from the registry).  A disconnected
`MutationObserver` stops delivering mutations for all of its targets. -/

structure MutObs where
  targets : List Nat
  disconnected : Bool
  deriving Repr, DecidableEq

/-- The mutation-observer world: the observers ever created (indexed by
creation order; a registry entry stores such an index) and the
`observer.active` registry of `[element, observer]` pairs. -/
structure ObsState where
  observers : List MutObs
  active : List (Nat × Nat)
  deriving Repr, DecidableEq

def obsInit : ObsState := { observers := [], active := [] }

/-- `observer.connect(elements, cb, userOptions)` for a collection: one new
`MutationObserver` observing every element, one registry entry per element. -/
def connect (s : ObsState) (elements : List Nat) : ObsState :=
  let oid := s.observers.length
  { observers := s.observers ++ [{ targets := elements, disconnected := false }],
    active := s.active ++ elements.map (fun e => (e, oid)) }

/-- Marks as disconnected every observer at an index `oid` such that
`(element, oid)` occurs in the registry: this is `removeObservers`'s loop
`for i in active: if (element === active[i][0]) active[i][1].disconnect()`.
The parameter `oid` is the index of the first observer of the list. -/
def markDisconnected (active : List (Nat × Nat)) (element : Nat) :
    List MutObs → Nat → List MutObs
  | [], _ => []
  | ob :: obs, oid =>
    (if (element, oid) ∈ active then { ob with disconnected := true } else ob)
      :: markDisconnected active element obs (oid + 1)

/-- `removeObservers(element)` inside `observer.disconnect`. -/
def removeObservers (s : ObsState) (element : Nat) : ObsState :=
  { s with observers := markDisconnected s.active element s.observers 0 }

/-- `observer.disconnect(elements)` on a collection with truthy `length`:
`removeObservers` for each given element.  (Passing a single element takes
the other branch of `if (elements.length)` and is `removeObservers`
directly.) -/
def disconnectElems (s : ObsState) (elements : List Nat) : ObsState :=
  elements.foldl removeObservers s

/-- Whether a mutation on `e` still invokes some connect callback: some
not-disconnected observer observes `e`. -/
def mutationFires (s : ObsState) (e : Nat) : Bool :=
  s.observers.any (fun ob => !ob.disconnected && ob.targets.contains e)

/-! ### The throttle gate of `observer.connect` (legacyComponents.js 788-799)

```js
let blockCb;
const mutationObserver = new MutationObserver((mutations) => {
  mutations.forEach((mutation) => {
    if (!blockCb) {
      blockCb = true;
      cb(elements, mutation);
      setTimeout(() => { blockCb = false; }, options.throttle);
    }
  });
});
```

`blockCb` is set when the callback fires and cleared by a timer
`options.throttle` ms later, so with the last fire at time `f` a mutation
observed at time `t` invokes the callback exactly when `f + throttle ≤ t`
(the reset timer due at `f + throttle` runs before a mutation delivered at
that same instant).  The gate state is `none` before the first fire and
`some f` afterwards. -/

def gateOpen (throttle : Nat) (lastFire : Option Nat) (t : Nat) : Bool :=
  match lastFire with
  | none => true
  | some f => decide (f + throttle ≤ t)

/-- Runs the throttle gate over mutation-observation times (in time order)
and returns the times at which the callback is invoked (each invocation is
synchronous with its mutation). -/
def throttleRun (throttle : Nat) : List Nat → Option Nat → List Nat
  | [], _ => []
  | t :: ts, lastFire =>
    if gateOpen throttle lastFire t then t :: throttleRun throttle ts (some t)
    else throttleRun throttle ts lastFire

/-! ### globalGetScript (legacyComponents.js 1004-1058)

```js
export const globalGetScript = (url, options) => {
  ...
  ucGlobals.requests = ucGlobals.requests || {};
  const { requests } = ucGlobals;
  ...
  const isPromise = requests[url] instanceof Promise;
  if (!isPromise) {
    requests[url] = createGlobalPromise();
  }
  return requests[url];
};
```

Promises are abstracted by identities (numbers); `createGlobalPromise`
inserts a script element (`loads` records one entry per created script, in
creation order).  Settling a promise (the script's `onload` handler
resolving or rejecting) touches the promise only — nothing ever removes an
entry from `requests`.  `outcomes` records each promise's settlement; a
promise settles at most once. -/

structure LoaderState where
  requests : List (String × Nat)
  outcomes : List (Nat × Bool)
  loads : List String
  nextPromise : Nat
  deriving Repr, DecidableEq

def loaderInit : LoaderState :=
  { requests := [], outcomes := [], loads := [], nextPromise := 0 }

/-- One call of `globalGetScript url`: returns the promise handed to the
caller and the new cache state. -/
def globalGetScript (s : LoaderState) (url : String) : Nat × LoaderState :=
  match s.requests.lookup url with
  | some p => (p, s)
  | none =>
    (s.nextPromise,
     { s with requests := s.requests ++ [(url, s.nextPromise)],
              loads := s.loads ++ [url],
              nextPromise := s.nextPromise + 1 })

/-- Events interleaving calls of `globalGetScript` with promise
settlements (load success / failure). -/
inductive LoaderEvent where
  | call (url : String)
  | settle (p : Nat) (success : Bool)
  deriving Repr, DecidableEq

def applyLoaderEvent (s : LoaderState) : LoaderEvent → LoaderState
  | .call url => (globalGetScript s url).2
  | .settle p b =>
    match s.outcomes.lookup p with
    | some _ => s
    | none => { s with outcomes := s.outcomes ++ [(p, b)] }

def runLoader (es : List LoaderEvent) : LoaderState :=
  es.foldl applyLoaderEvent loaderInit

/-! ## Theorems -/

/-! ### Throttle gate (claim C6) -/

theorem throttleRun_blocked_drop (throttle f : Nat) (burst tail : List Nat)
    (hburst : ∀ b ∈ burst, b < f + throttle) :
    throttleRun throttle (burst ++ tail) (some f)
      = throttleRun throttle tail (some f) := by
  induction burst with
  | nil => simp
  | cons b bs ih =>
    have hb : b < f + throttle := hburst b (by simp)
    have hgate : gateOpen throttle (some f) b = false := by
      simp [gateOpen, Nat.not_le.mpr hb]
    simp only [List.cons_append, throttleRun, hgate, Bool.false_eq_true,
      if_false]
    exact ih (fun x hx => hburst x (List.mem_cons_of_mem _ hx))

/-- C6: for a registration with throttle `t`, the first mutation of a burst
invokes the callback immediately (at its own observation time), every
mutation observed before `t` ms have elapsed since that invocation is
dropped outright, and the first mutation observed strictly after the gate
reopens invokes the callback again. -/
theorem observer_throttle_gate (throttle m r : Nat) (burst rest : List Nat)
    (_hthrottle : 0 < throttle)
    (hburst : ∀ b ∈ burst, b < m + throttle)
    (hr : m + throttle < r) :
    throttleRun throttle (m :: (burst ++ r :: rest)) none
      = m :: r :: throttleRun throttle rest (some r) := by
  have h1 : throttleRun throttle (m :: (burst ++ r :: rest)) none
      = m :: throttleRun throttle (burst ++ r :: rest) (some m) := by
    simp [throttleRun, gateOpen]
  rw [h1, throttleRun_blocked_drop throttle m burst (r :: rest) hburst]
  simp [throttleRun, gateOpen, Nat.le_of_lt hr]

theorem observer_throttle_gate_witness :
    (0 : Nat) < 100 ∧
      throttleRun 100 (0 :: ([10, 20, 30, 40] ++ 150 :: [])) none
        = 0 :: 150 :: throttleRun 100 [] (some 150) :=
  ⟨by decide,
   observer_throttle_gate 100 0 150 [10, 20, 30, 40] [] (by decide)
     (by decide) (by decide)⟩

/-! ### Observer disconnect (claim C5) -/

theorem markDisconnected_getElem (a : List (Nat × Nat)) (e : Nat) :
    ∀ (l : List MutObs) (i0 j : Nat),
      (markDisconnected a e l i0)[j]? =
        (l[j]?).map (fun ob =>
          if (e, i0 + j) ∈ a then { ob with disconnected := true } else ob) := by
  intro l
  induction l with
  | nil => intro i0 j; simp [markDisconnected]
  | cons ob obs ih =>
    intro i0 j
    cases j with
    | zero => simp [markDisconnected]
    | succ j' =>
      have := ih (i0 + 1) j'
      simp only [markDisconnected, List.getElem?_cons_succ, this]
      have harith : i0 + 1 + j' = i0 + (j' + 1) := by omega
      rw [harith]

/-- C5 counterexample: after `connect([A, B], cb)` on a collection (one
shared `MutationObserver` observing both elements), `disconnect(A)`
disconnects that shared observer, so a mutation on `B` no longer invokes
`cb` — contradicting the claim that registrations for elements not given
remain active. -/
theorem observer_disconnect_shared_cex :
    mutationFires (connect obsInit [0, 1]) 1 = true
  ∧ mutationFires (removeObservers (connect obsInit [0, 1]) 0) 1 = false := by
  decide

/-- C5 (amended): `disconnect` disconnects the underlying observer of
every registration whose target element is one of the given elements, and
touches no other observer; but because all elements of one `connect` call
share a single observer, disconnecting one of them also stops mutation
delivery for its co-registered elements (see the counterexample). -/
theorem observer_disconnect_matching (s : ObsState) (element : Nat) :
    (∀ oid ob, (element, oid) ∈ s.active → s.observers[oid]? = some ob →
       (removeObservers s element).observers[oid]? =
         some { ob with disconnected := true })
  ∧ (∀ oid ob, (element, oid) ∉ s.active → s.observers[oid]? = some ob →
       (removeObservers s element).observers[oid]? = some ob) := by
  constructor <;> intro oid ob hmem hget <;>
    simp [removeObservers, markDisconnected_getElem, hget, hmem]

theorem observer_disconnect_matching_witness :
    ((0, 0) ∈ ([(0, 0), (1, 0)] : List (Nat × Nat)))
  ∧ (removeObservers
       { observers := [{ targets := [0, 1], disconnected := false }],
         active := [(0, 0), (1, 0)] } 0).observers[0]? =
      some { targets := [0, 1], disconnected := true } :=
  ⟨by decide,
   (observer_disconnect_matching
      { observers := [{ targets := [0, 1], disconnected := false }],
        active := [(0, 0), (1, 0)] } 0).1 0
     { targets := [0, 1], disconnected := false } (by decide) (by decide)⟩

/-! ### Deduplicated resource loader (claim C7) -/

theorem lookup_append_some {α β : Type} [BEq α] (l1 l2 : List (α × β))
    (a : α) (b : β) (h : l1.lookup a = some b) :
    (l1 ++ l2).lookup a = some b := by
  induction l1 with
  | nil => simp [List.lookup] at h
  | cons p l ih =>
    obtain ⟨k, v⟩ := p
    rw [List.cons_append, List.lookup]
    rw [List.lookup] at h
    cases hk : a == k
    · rw [hk] at h
      exact ih h
    · rw [hk] at h
      exact h

theorem lookup_append_none {α β : Type} [BEq α] (l1 l2 : List (α × β))
    (a : α) (h : l1.lookup a = none) :
    (l1 ++ l2).lookup a = l2.lookup a := by
  induction l1 with
  | nil => simp
  | cons p l ih =>
    obtain ⟨k, v⟩ := p
    rw [List.cons_append, List.lookup]
    rw [List.lookup] at h
    cases hk : a == k
    · rw [hk] at h
      exact ih h
    · rw [hk] at h
      exact absurd h (by simp)

theorem loader_foldl_preserve {P : LoaderState → Prop}
    (h : ∀ s e, P s → P (applyLoaderEvent s e)) :
    ∀ (es : List LoaderEvent) (s : LoaderState), P s →
      P (es.foldl applyLoaderEvent s) := by
  intro es
  induction es with
  | nil => intro s hs; exact hs
  | cons e es ih => intro s hs; exact ih _ (h s e hs)

theorem globalGetScript_hit (s : LoaderState) (url : String) (p : Nat)
    (h : s.requests.lookup url = some p) : globalGetScript s url = (p, s) := by
  simp only [globalGetScript, h]

theorem globalGetScript_miss (s : LoaderState) (url : String)
    (h : s.requests.lookup url = none) :
    globalGetScript s url =
      (s.nextPromise,
       { s with requests := s.requests ++ [(url, s.nextPromise)],
                loads := s.loads ++ [url],
                nextPromise := s.nextPromise + 1 }) := by
  simp only [globalGetScript, h]

theorem applyLoaderEvent_call (s : LoaderState) (url : String) :
    applyLoaderEvent s (.call url) = (globalGetScript s url).2 := rfl

theorem applyLoaderEvent_settle_none (s : LoaderState) (p : Nat) (b : Bool)
    (h : s.outcomes.lookup p = none) :
    applyLoaderEvent s (.settle p b) =
      { s with outcomes := s.outcomes ++ [(p, b)] } := by
  simp only [applyLoaderEvent, h]

theorem applyLoaderEvent_settle_some (s : LoaderState) (p : Nat) (b b' : Bool)
    (h : s.outcomes.lookup p = some b') :
    applyLoaderEvent s (.settle p b) = s := by
  simp only [applyLoaderEvent, h]

theorem loader_requests_persist (s : LoaderState) (e : LoaderEvent)
    (url : String) (p : Nat) (h : s.requests.lookup url = some p) :
    (applyLoaderEvent s e).requests.lookup url = some p := by
  cases e with
  | call url' =>
    rw [applyLoaderEvent_call]
    cases hl : s.requests.lookup url' with
    | some q => rw [globalGetScript_hit s url' q hl]; exact h
    | none =>
      rw [globalGetScript_miss s url' hl]
      exact lookup_append_some _ _ _ _ h
  | settle p' b =>
    cases hl : s.outcomes.lookup p' with
    | some q => rw [applyLoaderEvent_settle_some s p' b q hl]; exact h
    | none => rw [applyLoaderEvent_settle_none s p' b hl]; exact h

theorem loader_outcomes_persist (s : LoaderState) (e : LoaderEvent)
    (p : Nat) (b : Bool) (h : s.outcomes.lookup p = some b) :
    (applyLoaderEvent s e).outcomes.lookup p = some b := by
  cases e with
  | call url' =>
    rw [applyLoaderEvent_call]
    cases hl : s.requests.lookup url' with
    | some q => rw [globalGetScript_hit s url' q hl]; exact h
    | none => rw [globalGetScript_miss s url' hl]; exact h
  | settle p' b' =>
    cases hl : s.outcomes.lookup p' with
    | some q => rw [applyLoaderEvent_settle_some s p' b' q hl]; exact h
    | none =>
      rw [applyLoaderEvent_settle_none s p' b' hl]
      exact lookup_append_some _ _ _ _ h

theorem loader_loads_once (es : List LoaderEvent) (url : String) :
    (runLoader es).loads.count url =
      if ((runLoader es).requests.lookup url).isSome then 1 else 0 := by
  have key : ∀ (s : LoaderState) (e : LoaderEvent),
      (∀ u, s.loads.count u = if (s.requests.lookup u).isSome then 1 else 0) →
      ∀ u, (applyLoaderEvent s e).loads.count u =
        if ((applyLoaderEvent s e).requests.lookup u).isSome then 1 else 0 := by
    intro s e hs u
    cases e with
    | call url' =>
      rw [applyLoaderEvent_call]
      cases hl : s.requests.lookup url' with
      | some q => rw [globalGetScript_hit s url' q hl]; exact hs u
      | none =>
        rw [globalGetScript_miss s url' hl]
        simp only [List.count_append]
        by_cases hu : url' = u
        · subst hu
          rw [lookup_append_none _ _ _ hl]
          have h0 := hs url'
          rw [hl] at h0
          simp only [Option.isSome_none, Bool.false_eq_true, if_false] at h0
          simp [h0, List.lookup]
        · have hu' : u ≠ url' := fun h => hu h.symm
          have hcnt : List.count u [url'] = 0 :=
            List.count_eq_zero.mpr (by simp [hu'])
          rw [hcnt, Nat.add_zero]
          cases hl2 : s.requests.lookup u with
          | some q2 =>
            rw [lookup_append_some _ _ _ _ hl2]
            have h0 := hs u
            rw [hl2] at h0
            simpa using h0
          | none =>
            rw [lookup_append_none _ _ _ hl2]
            have hl3 : List.lookup u [(url', s.nextPromise)] = none := by
              rw [List.lookup, beq_eq_false_iff_ne.mpr hu']
              rfl
            rw [hl3]
            have h0 := hs u
            rw [hl2] at h0
            simpa using h0
    | settle p' b' =>
      cases hl : s.outcomes.lookup p' with
      | some q => rw [applyLoaderEvent_settle_some s p' b' q hl]; exact hs u
      | none => rw [applyLoaderEvent_settle_none s p' b' hl]; exact hs u
  have base : ∀ u, (loaderInit).loads.count u =
      if ((loaderInit).requests.lookup u).isSome then 1 else 0 := by
    intro u; simp [loaderInit, List.lookup]
  exact loader_foldl_preserve (P := fun s => ∀ u, s.loads.count u =
    if (s.requests.lookup u).isSome then 1 else 0) key es loaderInit base url

/-- C7: once the first `globalGetScript(url)` call has cached promise `p`,
every later call for `url` — across any interleaving of further calls and
promise settlements — returns that same promise `p`; exactly one script
load has been initiated for `url`; and a rejection of `p` does not evict
the cache entry, so repeat calls still return `p`, whose recorded outcome
remains the same rejection. -/
theorem globalGetScript_dedup (es es' : List LoaderEvent) (url : String)
    (p : Nat)
    (hcache : (runLoader es).requests.lookup url = some p)
    (hpending : (runLoader es).outcomes.lookup p = none) :
    ((globalGetScript (runLoader (es ++ es')) url).1 = p
  ∧ (runLoader (es ++ es')).loads.count url = 1)
  ∧ ((runLoader (es ++ LoaderEvent.settle p false :: es')).requests.lookup url
       = some p
  ∧ (globalGetScript (runLoader (es ++ LoaderEvent.settle p false :: es')) url).1
       = p
  ∧ (runLoader (es ++ LoaderEvent.settle p false :: es')).outcomes.lookup p
       = some false) := by
  have hrun : ∀ (tail : List LoaderEvent),
      runLoader (es ++ tail) = tail.foldl applyLoaderEvent (runLoader es) := by
    intro tail; simp [runLoader, List.foldl_append]
  have hpersist : ∀ (tail : List LoaderEvent) (s : LoaderState),
      s.requests.lookup url = some p →
      (tail.foldl applyLoaderEvent s).requests.lookup url = some p := by
    intro tail s hs
    exact loader_foldl_preserve
      (P := fun s => s.requests.lookup url = some p)
      (fun s e h => loader_requests_persist s e url p h) tail s hs
  have hret : ∀ (s : LoaderState), s.requests.lookup url = some p →
      (globalGetScript s url).1 = p := by
    intro s hs; unfold globalGetScript; rw [hs]
  constructor
  · constructor
    · exact hret _ (by rw [hrun]; exact hpersist es' _ hcache)
    · have := loader_loads_once (es ++ es') url
      rw [this, hrun, if_pos (by rw [hpersist es' _ hcache]; rfl)]
  · have hsettle : (applyLoaderEvent (runLoader es)
        (.settle p false)).outcomes.lookup p = some false := by
      rw [applyLoaderEvent_settle_none _ _ _ hpending]
      show ((runLoader es).outcomes ++ [(p, false)]).lookup p = some false
      rw [lookup_append_none _ _ _ hpending]
      simp [List.lookup]
    have hsettle_req : (applyLoaderEvent (runLoader es)
        (.settle p false)).requests.lookup url = some p :=
      loader_requests_persist _ _ _ _ hcache
    have hreq2 : (runLoader
        (es ++ LoaderEvent.settle p false :: es')).requests.lookup url
          = some p := by
      rw [hrun, List.foldl_cons]
      exact hpersist es' _ hsettle_req
    refine ⟨hreq2, hret _ hreq2, ?_⟩
    rw [hrun, List.foldl_cons]
    exact loader_foldl_preserve
      (P := fun s => s.outcomes.lookup p = some false)
      (fun s e h => loader_outcomes_persist s e p false h) es' _ hsettle

theorem globalGetScript_dedup_witness :
    (runLoader [LoaderEvent.call "x.js"]).requests.lookup "x.js" = some 0
  ∧ (globalGetScript
       (runLoader ([LoaderEvent.call "x.js"] ++ [LoaderEvent.call "x.js"]))
       "x.js").1 = 0 :=
  ⟨by decide,
   ((globalGetScript_dedup [LoaderEvent.call "x.js"] [LoaderEvent.call "x.js"]
      "x.js" 0 (by decide) (by decide)).1).1⟩

/-! ### Condition validation (claim C9) -/

/-- C9 counterexample: the falsy condition `false` handed to `pollerLite`
is not rejected — `evaluateCondition` has no entry for `typeof false`, so
the condition is silently treated as satisfied (`true`), contradicting the
claim that every falsy condition fails fast with a descriptive error in
both pollers. -/
theorem falsy_condition_cex :
    truthyCond (.boolean false) = false
  ∧ evaluateCondition (fun _ => false) (.boolean false) = true :=
  ⟨rfl, rfl⟩

/-- C9 (amended): only the full poller fails fast on falsy conditions —
`expressionValidator` throws `Error('Invalid poller expression')` for every
falsy condition value; `pollerLite`'s `evaluateCondition` instead silently
treats every falsy condition of non-string type (`null`, `undefined`,
`false`, `0`) as satisfied. -/
theorem falsy_condition_validation (dom : String → Bool) (c : CondVal)
    (hfalsy : truthyCond c = false) :
    expressionValidator dom c = .error "Invalid poller expression"
  ∧ (condTypeof c ≠ "string" → evaluateCondition dom c = true) := by
  constructor
  · simp [expressionValidator, hfalsy]
  · intro hs
    cases c with
    | func r => simp [truthyCond] at hfalsy
    | str s => simp [condTypeof] at hs
    | boolean b => rfl
    | num n => rfl
    | null => rfl
    | undef => rfl

theorem falsy_condition_validation_witness :
    truthyCond .null = false
  ∧ expressionValidator (fun _ => false) .null
      = .error "Invalid poller expression" :=
  ⟨rfl, (falsy_condition_validation (fun _ => false) .null rfl).1⟩

/-! ### mergeObjects on null target entries (claim C10) -/

theorem exceptBind_ok {ε α β : Type} (a : α) (f : α → Except ε β) :
    ((Except.ok a : Except ε α) >>= f) = f a := rfl

theorem exceptBind_error {ε α β : Type} (e : ε) (f : α → Except ε β) :
    ((Except.error e : Except ε α) >>= f) = Except.error e := rfl

theorem mergeObjectsF_succ (fuel : Nat) (target source : JSVal) :
    mergeObjectsF (fuel + 1) target source =
      (jsKeys source) >>= fun keys =>
        keys.foldlM (mergeStep fuel source) target := rfl

theorem jsGet_isOk (v : JSVal) (k : String) (h1 : v ≠ .vNull)
    (h2 : v ≠ .vUndefined) : ∃ w, jsGet v k = .ok w := by
  cases v with
  | vNull => exact absurd rfl h1
  | vUndefined => exact absurd rfl h2
  | vBool b => exact ⟨_, rfl⟩
  | vNum n => exact ⟨_, rfl⟩
  | vStr s => exact ⟨_, rfl⟩
  | vArr elems => exact ⟨_, rfl⟩
  | vObj fields => exact ⟨_, rfl⟩

theorem mergeStep_null (fuel : Nat) (source : JSVal) (k : String) (w : JSVal)
    (h : jsGet source k = .ok w) :
    mergeStep fuel source .vNull k =
      .error "TypeError: Cannot read properties of null" := by
  unfold mergeStep
  rw [h]
  rfl

theorem mergeNull_ok (fuel : Nat) (sv w : JSVal)
    (h : mergeObjectsF fuel .vNull sv = .ok w) : w = .vNull ∧ sv ≠ .vNull := by
  cases fuel with
  | zero => simp [mergeObjectsF] at h
  | succ f =>
    rw [mergeObjectsF_succ] at h
    cases hkeys : jsKeys sv with
    | error e =>
      rw [hkeys, exceptBind_error] at h
      exact absurd h (by simp)
    | ok keys =>
      rw [hkeys, exceptBind_ok] at h
      have hsv : sv ≠ .vNull := by
        intro hv; subst hv; simp [jsKeys] at hkeys
      have hsv' : sv ≠ .vUndefined := by
        intro hv; subst hv; simp [jsKeys] at hkeys
      cases keys with
      | nil =>
        rw [List.foldlM_nil] at h
        have h' : (Except.ok JSVal.vNull : Except String JSVal) = .ok w := h
        exact ⟨(by cases h'; rfl), hsv⟩
      | cons k0 ks =>
        obtain ⟨w0, hw0⟩ := jsGet_isOk sv k0 hsv hsv'
        rw [List.foldlM_cons, mergeStep_null f sv k0 w0 hw0,
          exceptBind_error] at h
        exact absurd h (by simp)

theorem jsGet_setField_same (fs : List (String × JSVal)) (k : String)
    (v : JSVal) : jsGet (.vObj (setField fs k v)) k = .ok v := by
  induction fs with
  | nil => simp [setField, jsGet]
  | cons p fs ih =>
    obtain ⟨k', v'⟩ := p
    by_cases hk : k' = k
    · subst hk
      simp [setField, jsGet]
    · simp only [setField, if_neg hk]
      simpa [jsGet, List.find?, hk] using ih

theorem jsGet_setField_other (fs : List (String × JSVal)) (k k2 : String)
    (v : JSVal) (h : k2 ≠ k) :
    jsGet (.vObj (setField fs k v)) k2 = jsGet (.vObj fs) k2 := by
  induction fs with
  | nil => simp [setField, jsGet, List.find?, Ne.symm h]
  | cons p fs ih =>
    obtain ⟨k', v'⟩ := p
    by_cases hk : k' = k
    · subst hk
      have hk2 : ¬(k' = k2) := fun he => h he.symm
      simp [setField, jsGet, List.find?, hk2]
    · simp only [setField, if_neg hk]
      by_cases hk2 : k' = k2
      · subst hk2
        simp [jsGet, List.find?]
      · simpa [jsGet, List.find?, hk2] using ih

theorem mergeStep_obj_ok (fuel : Nat) (source : JSVal)
    (fs : List (String × JSVal)) (key : String) (m : JSVal)
    (h : mergeStep fuel source (.vObj fs) key = .ok m) :
    ∃ sub, m = .vObj (setField fs key sub) := by
  unfold mergeStep at h
  cases hsv : jsGet source key with
  | error e =>
    rw [hsv, exceptBind_error] at h
    exact absurd h (by simp)
  | ok sv =>
    rw [hsv, exceptBind_ok] at h
    have htv : jsGet (.vObj fs) key =
        .ok (((fs.find? (fun f => decide (f.1 = key))).map Prod.snd).getD .vUndefined) := rfl
    rw [htv, exceptBind_ok] at h
    by_cases hobj : isObjectNotArray
        (((fs.find? (fun f => decide (f.1 = key))).map Prod.snd).getD .vUndefined) = true
    · rw [if_pos hobj] at h
      cases hsub : mergeObjectsF fuel
          (((fs.find? (fun f => decide (f.1 = key))).map Prod.snd).getD .vUndefined) sv with
      | error e =>
        rw [hsub, exceptBind_error] at h
        exact absurd h (by simp)
      | ok sub =>
        rw [hsub, exceptBind_ok] at h
        have h' : (Except.ok (JSVal.vObj (setField fs key sub))
            : Except String JSVal) = .ok m := h
        exact ⟨sub, by cases h'; rfl⟩
    · rw [if_neg hobj] at h
      have h' : (Except.ok (JSVal.vObj (setField fs key sv))
          : Except String JSVal) = .ok m := h
      exact ⟨sv, by cases h'; rfl⟩

theorem mergeFold_frame (fuel : Nat) (source : JSVal) (k : String) :
    ∀ (keys : List String) (fs : List (String × JSVal)) (m : JSVal),
      k ∉ keys →
      keys.foldlM (mergeStep fuel source) (.vObj fs) = .ok m →
      jsGet m k = jsGet (.vObj fs) k := by
  intro keys
  induction keys with
  | nil =>
    intro fs m _ h
    rw [List.foldlM_nil] at h
    have h' : (Except.ok (JSVal.vObj fs) : Except String JSVal) = .ok m := h
    cases h'; rfl
  | cons key ks ih =>
    intro fs m hk h
    rw [List.foldlM_cons] at h
    cases hstep : mergeStep fuel source (.vObj fs) key with
    | error e =>
      rw [hstep, exceptBind_error] at h
      exact absurd h (by simp)
    | ok m1 =>
      rw [hstep, exceptBind_ok] at h
      obtain ⟨sub, rfl⟩ := mergeStep_obj_ok fuel source fs key m1 hstep
      have hne : k ≠ key := fun he => hk (he ▸ List.mem_cons_self _ _)
      rw [ih _ m (fun hm => hk (List.mem_cons_of_mem _ hm)) h]
      exact jsGet_setField_other fs key k sub hne

theorem mergeFold_null_entry (fuel : Nat) (source : JSVal) (k : String) :
    ∀ (keys : List String) (fs : List (String × JSVal)) (m : JSVal),
      keys.Nodup → k ∈ keys →
      jsGet (.vObj fs) k = .ok .vNull →
      keys.foldlM (mergeStep fuel source) (.vObj fs) = .ok m →
      jsGet m k = .ok .vNull ∧
        (∀ v, jsGet source k = .ok v → v ≠ .vNull) := by
  intro keys
  induction keys with
  | nil => intro fs m _ hk; exact absurd hk (List.not_mem_nil k)
  | cons key ks ih =>
    intro fs m hnodup hk htarget h
    rw [List.foldlM_cons] at h
    by_cases hkey : k = key
    · subst hkey
      have hknotks : k ∉ ks := (List.nodup_cons.mp hnodup).1
      cases hsv : jsGet source k with
      | error e =>
        rw [show mergeStep fuel source (.vObj fs) k = .error e by
              unfold mergeStep; rw [hsv]; rfl, exceptBind_error] at h
        exact absurd h (by simp)
      | ok sv =>
        have hstep : mergeStep fuel source (.vObj fs) k =
            (mergeObjectsF fuel .vNull sv) >>= fun sub =>
              jsSet (.vObj fs) k sub := by
          unfold mergeStep
          rw [hsv, exceptBind_ok, htarget, exceptBind_ok]
          rfl
        rw [hstep] at h
        cases hsub : mergeObjectsF fuel .vNull sv with
        | error e =>
          rw [hsub, exceptBind_error, exceptBind_error] at h
          exact absurd h (by simp)
        | ok sub =>
          obtain ⟨hsubnull, hsvnull⟩ := mergeNull_ok fuel sv sub hsub
          subst hsubnull
          rw [hsub, exceptBind_ok] at h
          have hset : jsSet (.vObj fs) k .vNull =
              .ok (.vObj (setField fs k .vNull)) := rfl
          rw [hset, exceptBind_ok] at h
          have hfr := mergeFold_frame fuel source k ks
            (setField fs k .vNull) m hknotks h
          rw [hfr, jsGet_setField_same]
          refine ⟨rfl, ?_⟩
          intro v hv
          have h2 : sv = v := Except.ok.inj hv
          subst h2
          exact hsvnull
    · have hkks : k ∈ ks := by
        cases List.mem_cons.mp hk with
        | inl he => exact absurd he hkey
        | inr hm => exact hm
      cases hstep : mergeStep fuel source (.vObj fs) key with
      | error e =>
        rw [hstep, exceptBind_error] at h
        exact absurd h (by simp)
      | ok m1 =>
        rw [hstep, exceptBind_ok] at h
        obtain ⟨sub, rfl⟩ := mergeStep_obj_ok fuel source fs key m1 hstep
        have htarget1 : jsGet (.vObj (setField fs key sub)) k = .ok .vNull := by
          rw [jsGet_setField_other fs key k sub hkey]
          exact htarget
        exact ih (setField fs key sub) m (List.nodup_cons.mp hnodup).2
          hkks htarget1 h

/-- C10 counterexample: with `target.opt === null` and `source.opt` an
empty array, `mergeObjects` does not raise a TypeError — `Object.keys([])`
is empty, so the recursive merge quietly returns `null` — refuting the
claim that every array value at such a key raises a TypeError. -/
theorem mergeObjects_empty_array_cex :
    mergeObjectsF 4 (.vObj [("opt", .vNull)]) (.vObj [("opt", .vArr [])])
      = .ok (.vObj [("opt", .vNull)]) := rfl

/-- C10 (amended): for every `mergeObjects(target, source)` call and key
`k` with `target[k] === null` present in `source`, `null` is classified as
a mergeable object, so the recursive merge `mergeObjects(null, source[k])`
returns `null` when `source[k]` is a number or boolean (silently
discarding the user's option) and raises a TypeError when `source[k]` is a
non-empty string, a non-empty array, or a non-empty object; whenever the
overall merge returns at all, it maps `k` to `null` and never to a
`source[k]` value distinct from `null` (and `source[k] = null` itself
makes the merge throw, so the result never maps `k` to `source[k]`). -/
theorem mergeObjects_null_target (fuel : Nat)
    (tfs sfs : List (String × JSVal)) (k : String) (v : JSVal)
    (hfuel : 2 ≤ fuel)
    (hnodup : (sfs.map Prod.fst).Nodup)
    (htarget : jsGet (.vObj tfs) k = .ok .vNull)
    (hsource : jsGet (.vObj sfs) k = .ok v)
    (hk : k ∈ sfs.map Prod.fst) :
    isObjectNotArray .vNull = true
  ∧ ((∃ n, v = .vNum n) ∨ (∃ b, v = .vBool b) →
       mergeObjectsF fuel .vNull v = .ok .vNull)
  ∧ ((∃ s, v = .vStr s ∧ s ≠ "") ∨ (∃ xs, v = .vArr xs ∧ xs ≠ []) ∨
       (∃ fs, v = .vObj fs ∧ fs ≠ []) →
       mergeObjectsF fuel .vNull v
         = .error "TypeError: Cannot read properties of null")
  ∧ (∀ r, mergeObjectsF fuel (.vObj tfs) (.vObj sfs) = .ok r →
       jsGet r k = .ok .vNull ∧ v ≠ .vNull) := by
  obtain ⟨f, rfl⟩ : ∃ f, fuel = f + 1 := by
    cases fuel with
    | zero => omega
    | succ f => exact ⟨f, rfl⟩
  refine ⟨rfl, ?_, ?_, ?_⟩
  · rintro (⟨n, rfl⟩ | ⟨b, rfl⟩) <;>
      rw [mergeObjectsF_succ] <;> rfl
  · rintro (⟨s, rfl, hs⟩ | ⟨xs, rfl, hxs⟩ | ⟨fs, rfl, hfs⟩)
    · obtain ⟨len', hlen⟩ : ∃ m, s.length = m + 1 := by
        obtain ⟨cs⟩ := s
        cases cs with
        | nil => exact absurd rfl hs
        | cons c cs' => exact ⟨cs'.length, rfl⟩
      have hkeys : jsKeys (.vStr s) =
          .ok (((List.range (len' + 1)).map (fun i => toString i))) := by
        simp [jsKeys, hlen]
      rw [mergeObjectsF_succ, hkeys, exceptBind_ok,
        List.range_succ_eq_map, List.map_cons, List.foldlM_cons]
      have hchar : ∃ w, jsGet (.vStr s) (toString (0 : Nat)) = .ok w :=
        jsGet_isOk _ _ (by simp) (by simp)
      obtain ⟨w, hw⟩ := hchar
      rw [mergeStep_null f _ _ _ hw, exceptBind_error]
    · obtain ⟨x, xs', rfl⟩ : ∃ x xs', xs = x :: xs' := by
        cases xs with
        | nil => exact absurd rfl hxs
        | cons x xs' => exact ⟨x, xs', rfl⟩
      have hkeys : jsKeys (.vArr (x :: xs')) =
          .ok (((List.range (xs'.length + 1)).map (fun i => toString i))) := by
        simp [jsKeys]
      rw [mergeObjectsF_succ, hkeys, exceptBind_ok,
        List.range_succ_eq_map, List.map_cons, List.foldlM_cons]
      have hget : ∃ w, jsGet (.vArr (x :: xs')) (toString (0 : Nat)) = .ok w :=
        jsGet_isOk _ _ (by simp) (by simp)
      obtain ⟨w, hw⟩ := hget
      rw [mergeStep_null f _ _ _ hw, exceptBind_error]
    · obtain ⟨p, fs', rfl⟩ : ∃ p fs', fs = p :: fs' := by
        cases fs with
        | nil => exact absurd rfl hfs
        | cons p fs' => exact ⟨p, fs', rfl⟩
      have hkeys : jsKeys (.vObj (p :: fs')) =
          .ok (p.1 :: fs'.map Prod.fst) := by
        simp [jsKeys]
      rw [mergeObjectsF_succ, hkeys, exceptBind_ok, List.foldlM_cons]
      have hget : ∃ w, jsGet (.vObj (p :: fs')) p.1 = .ok w :=
        jsGet_isOk _ _ (by simp) (by simp)
      obtain ⟨w, hw⟩ := hget
      rw [mergeStep_null f _ _ _ hw, exceptBind_error]
  · intro r hr
    rw [mergeObjectsF_succ] at hr
    have hkeys : jsKeys (.vObj sfs) = .ok (sfs.map Prod.fst) := rfl
    rw [hkeys, exceptBind_ok] at hr
    have hmain := mergeFold_null_entry f (.vObj sfs) k (sfs.map Prod.fst)
      tfs r hnodup hk htarget hr
    exact ⟨hmain.1, hmain.2 v hsource⟩

theorem mergeObjects_null_target_witness :
    mergeObjectsF 2 .vNull (.vNum 5) = .ok .vNull
  ∧ jsGet (.vObj [("k", .vNull)]) "k" = .ok .vNull :=
  ⟨(mergeObjects_null_target 2 [("k", .vNull)] [("k", .vNum 5)] "k" (.vNum 5)
      (by decide) (by simp) rfl rfl (by simp)).2.1 (Or.inl ⟨5, rfl⟩),
   rfl⟩

/-! ### Shared helpers: event-queue extraction and index-list cardinality -/

theorem extractMin_eq_none {α : Type} (key : α → Nat) (l : List α) :
    extractMin key l = none ↔ l = [] := by
  cases l with
  | nil => simp [extractMin]
  | cons x xs =>
    simp only [extractMin]
    cases extractMin key xs with
    | none => simp
    | some p =>
      obtain ⟨m, rest⟩ := p
      by_cases hle : key x ≤ key m <;> simp [hle]

theorem extractMin_perm {α : Type} (key : α → Nat) :
    ∀ (l : List α) (a : α) (rest : List α),
      extractMin key l = some (a, rest) → l.Perm (a :: rest) := by
  intro l
  induction l with
  | nil => intro a rest h; simp [extractMin] at h
  | cons x xs ih =>
    intro a rest h
    simp only [extractMin] at h
    cases hx : extractMin key xs with
    | none =>
      rw [hx] at h
      have h' : (some (x, ([] : List α)) : Option (α × List α))
          = some (a, rest) := h
      cases h'
      rw [(extractMin_eq_none key xs).mp hx]
    | some p =>
      obtain ⟨m, rest'⟩ := p
      rw [hx] at h
      have h' : (if key x ≤ key m then some (x, xs) else some (m, x :: rest'))
          = some (a, rest) := h
      by_cases hle : key x ≤ key m
      · rw [if_pos hle] at h'
        cases h'
        exact List.Perm.refl _
      · rw [if_neg hle] at h'
        have hpair := Option.some.inj h'
        have hm : m = a := congrArg Prod.fst hpair
        have hr : x :: rest' = rest := congrArg Prod.snd hpair
        rw [← hm, ← hr]
        exact ((ih m rest' hx).cons x).trans (List.Perm.swap m x rest')

theorem nodup_length_lt (l : List Nat) (N i : Nat) (hnd : l.Nodup)
    (hlt : ∀ x ∈ l, x < N) (hi : i < N) (hni : i ∉ l) : l.length < N := by
  have hsub : l.toFinset ⊆ (Finset.range N).erase i := by
    intro x hx
    rw [List.mem_toFinset] at hx
    rw [Finset.mem_erase, Finset.mem_range]
    exact ⟨fun he => hni (he ▸ hx), hlt x hx⟩
  have hcard := Finset.card_le_card hsub
  rw [List.toFinset_card_of_nodup hnd,
    Finset.card_erase_of_mem (Finset.mem_range.mpr hi), Finset.card_range]
    at hcard
  omega

theorem nodup_full_of_length (l : List Nat) (N : Nat) (hnd : l.Nodup)
    (hlt : ∀ x ∈ l, x < N) (hlen : l.length = N) : ∀ i < N, i ∈ l := by
  have hsub : l.toFinset ⊆ Finset.range N := by
    intro x hx
    rw [List.mem_toFinset] at hx
    exact Finset.mem_range.mpr (hlt x hx)
  have heq : l.toFinset = Finset.range N :=
    Finset.eq_of_subset_of_card_le hsub
      (by rw [List.toFinset_card_of_nodup hnd, hlen, Finset.card_range])
  intro i hi
  rw [← List.mem_toFinset, heq]
  exact Finset.mem_range.mpr hi

theorem nodup_length_of_full (l : List Nat) (N : Nat) (hnd : l.Nodup)
    (hlt : ∀ x ∈ l, x < N) (hfull : ∀ i < N, i ∈ l) : l.length = N := by
  have hsub : l.toFinset ⊆ Finset.range N := by
    intro x hx
    rw [List.mem_toFinset] at hx
    exact Finset.mem_range.mpr (hlt x hx)
  have hsub2 : Finset.range N ⊆ l.toFinset := by
    intro x hx
    rw [List.mem_toFinset]
    exact hfull x (Finset.mem_range.mp hx)
  have heq : l.toFinset = Finset.range N := subset_antisymm hsub hsub2
  have := congrArg Finset.card heq
  rw [List.toFinset_card_of_nodup hnd, Finset.card_range] at this
  exact this

/-! ### pollerLite: invariants and the shared-deadline claim (C3) -/

theorem pollForCondition_stop (ctx : LiteCtx) (s : LiteState)
    (idx w now : Nat) (skip : Bool)
    (h : ctx.timeout ≠ 0 ∧ ctx.timeout < now) :
    pollForCondition ctx s idx w now skip = s := by
  unfold pollForCondition
  rw [if_pos h]

theorem pollForCondition_succeed (ctx : LiteCtx) (s : LiteState)
    (idx w now : Nat) (skip : Bool)
    (h : ¬(ctx.timeout ≠ 0 ∧ ctx.timeout < now))
    (he : ctx.evalCond idx now = true) :
    pollForCondition ctx s idx w now skip =
      { s with successfulConditions := s.successfulConditions ++ [idx],
               cbCount :=
                 if (s.successfulConditions ++ [idx]).length = ctx.numConds
                 then s.cbCount + 1 else s.cbCount } := by
  unfold pollForCondition
  rw [if_neg h, if_pos he]

theorem pollForCondition_schedule (ctx : LiteCtx) (s : LiteState)
    (idx w now : Nat) (skip : Bool)
    (h : ¬(ctx.timeout ≠ 0 ∧ ctx.timeout < now))
    (he : ctx.evalCond idx now = false) :
    pollForCondition ctx s idx w now skip =
      { s with tasks := s.tasks ++
          [{ idx := idx, fireTime := now + (if skip then 0 else w),
             waitTime := ctx.mult w }] } := by
  unfold pollForCondition
  rw [if_neg h, if_neg (by rw [he]; exact Bool.false_ne_true)]

theorem litePoll_core (ctx : LiteCtx) (J : Nat) (s : LiteState)
    (idx w now : Nat) (skip : Bool) (inv : LiteInvAux ctx J s)
    (hJN : J ≤ ctx.numConds)
    (hidx : idx < J)
    (hnot_succ : idx ∉ s.successfulConditions)
    (hnot_task : idx ∉ s.tasks.map LiteTask.idx) :
    LiteInvAux ctx J (pollForCondition ctx s idx w now skip) := by
  by_cases hstop : ctx.timeout ≠ 0 ∧ ctx.timeout < now
  · rw [pollForCondition_stop ctx s idx w now skip hstop]
    exact inv
  cases he : ctx.evalCond idx now with
  | true =>
    rw [pollForCondition_succeed ctx s idx w now skip hstop he]
    have hnd : (s.successfulConditions ++ [idx]).Nodup :=
      List.nodup_append.mpr
        ⟨inv.succ_nodup, List.nodup_singleton idx, by
          intro a ha hb
          simp at hb
          subst hb
          exact hnot_succ ha⟩
    have hlenlt : s.successfulConditions.length < ctx.numConds :=
      nodup_length_lt s.successfulConditions ctx.numConds idx inv.succ_nodup
        (fun x hx => Nat.lt_of_lt_of_le (inv.succ_lt x hx) hJN)
        (Nat.lt_of_lt_of_le hidx hJN) hnot_succ
    refine ⟨hnd, ?_, inv.task_lt, inv.task_idx_nodup, ?_, ?_, ?_⟩
    · intro x hx
      rcases List.mem_append.mp hx with hx | hx
      · exact inv.succ_lt x hx
      · simp at hx; omega
    · intro t ht hmem
      rcases List.mem_append.mp hmem with hx | hx
      · exact inv.task_notsucc t ht hx
      · simp at hx
        exact hnot_task (hx ▸ List.mem_map_of_mem LiteTask.idx ht)
    · show (if (s.successfulConditions ++ [idx]).length = ctx.numConds
            then s.cbCount + 1 else s.cbCount) = _
      rw [inv.cb_eq, List.length_append, List.length_singleton]
      by_cases hN : s.successfulConditions.length + 1 = ctx.numConds
      · rw [if_pos hN, if_neg (by omega), if_pos (by omega)]
      · rw [if_neg hN, if_neg (by omega), if_neg (by omega)]
    · intro i hi
      rcases List.mem_append.mp hi with hx | hx
      · exact inv.succ_eval i hx
      · simp at hx
        subst hx
        refine ⟨now, he, fun ht0 => ?_⟩
        by_contra hgt
        exact hstop ⟨ht0, by omega⟩
  | false =>
    rw [pollForCondition_schedule ctx s idx w now skip hstop he]
    refine ⟨inv.succ_nodup, inv.succ_lt, ?_, ?_, ?_, inv.cb_eq, inv.succ_eval⟩
    · intro t ht
      rcases List.mem_append.mp ht with hx | hx
      · exact inv.task_lt t hx
      · simp at hx
        subst hx
        exact hidx
    · rw [List.map_append]
      refine List.nodup_append.mpr ⟨inv.task_idx_nodup, by simp, ?_⟩
      intro a ha hb
      simp at hb
      subst hb
      exact hnot_task ha
    · intro t ht
      rcases List.mem_append.mp ht with hx | hx
      · exact inv.task_notsucc t hx
      · simp at hx
        subst hx
        exact hnot_succ

theorem liteInvAux_mono (ctx : LiteCtx) (j : Nat) (s : LiteState)
    (inv : LiteInvAux ctx j s) : LiteInvAux ctx (j + 1) s :=
  ⟨inv.succ_nodup, fun x hx => Nat.lt_succ_of_lt (inv.succ_lt x hx),
    fun t ht => Nat.lt_succ_of_lt (inv.task_lt t ht), inv.task_idx_nodup,
    inv.task_notsucc, inv.cb_eq, inv.succ_eval⟩

theorem liteInit_inv (ctx : LiteCtx) :
    LiteInvAux ctx ctx.numConds (liteInit ctx) := by
  have key : ∀ j ≤ ctx.numConds,
      LiteInvAux ctx j ((List.range j).foldl
        (fun s i => pollForCondition ctx s i ctx.wait 0 true)
        { successfulConditions := [], cbCount := 0, tasks := [] }) := by
    intro j
    induction j with
    | zero =>
      intro _
      refine ⟨List.nodup_nil, by simp, by simp, by simp, by simp, ?_, by simp⟩
      show (0 : Nat) =
        if 0 < ctx.numConds ∧ ([] : List Nat).length = ctx.numConds then 1
        else 0
      rw [if_neg]
      rintro ⟨h1, h2⟩
      simp at h2
      omega
    | succ j ih =>
      intro hj
      rw [List.range_succ, List.foldl_append, List.foldl_cons, List.foldl_nil]
      have inv := liteInvAux_mono ctx j _ (ih (Nat.le_of_succ_le hj))
      refine litePoll_core ctx (j + 1) _ j ctx.wait 0 true inv hj
        (Nat.lt_succ_self j) ?_ ?_
      · intro hmem
        exact Nat.lt_irrefl j ((ih (Nat.le_of_succ_le hj)).succ_lt j hmem)
      · intro hmem
        obtain ⟨t, ht, hti⟩ := List.mem_map.mp hmem
        exact Nat.lt_irrefl j
          (hti ▸ (ih (Nat.le_of_succ_le hj)).task_lt t ht)
  exact key ctx.numConds (Nat.le_refl _)

theorem liteStep_inv (ctx : LiteCtx) (s : LiteState)
    (inv : LiteInvAux ctx ctx.numConds s) :
    LiteInvAux ctx ctx.numConds (liteStep ctx s) := by
  unfold liteStep
  cases hx : extractMin (fun t => t.fireTime) s.tasks with
  | none => exact inv
  | some p =>
    obtain ⟨t, rest⟩ := p
    have hperm := extractMin_perm (fun t => t.fireTime) s.tasks t rest hx
    have hmemt : t ∈ s.tasks := hperm.mem_iff.mpr (List.mem_cons_self t rest)
    have hrest_sub : ∀ x ∈ rest, x ∈ s.tasks :=
      fun x hxr => hperm.mem_iff.mpr (List.mem_cons_of_mem t hxr)
    have hmapnd : (List.map LiteTask.idx (t :: rest)).Nodup :=
      ((hperm.map LiteTask.idx).nodup_iff).mp inv.task_idx_nodup
    have invMid : LiteInvAux ctx ctx.numConds { s with tasks := rest } :=
      ⟨inv.succ_nodup, inv.succ_lt,
        fun x hxr => inv.task_lt x (hrest_sub x hxr),
        (List.nodup_cons.mp hmapnd).2,
        fun x hxr => inv.task_notsucc x (hrest_sub x hxr),
        inv.cb_eq, inv.succ_eval⟩
    exact litePoll_core ctx ctx.numConds _ t.idx t.waitTime t.fireTime false
      invMid (Nat.le_refl _) (inv.task_lt t hmemt)
      (inv.task_notsucc t hmemt)
      (by simpa using (List.nodup_cons.mp hmapnd).1)

theorem liteRun_inv (ctx : LiteCtx) (n : Nat) :
    LiteInvAux ctx ctx.numConds (liteRun ctx n) := by
  induction n with
  | zero => exact liteInit_inv ctx
  | succ n ih =>
    rw [liteRun, Function.iterate_succ_apply']
    exact liteStep_inv ctx _ ih

/-- C3: every `pollerLite` session with timeout `T > 0` computes the single
absolute deadline once at session start (`ctx.timeout`, shared by every
condition's retry loop).  If some condition's evaluations are all falsy up
to the deadline (it first turns truthy only strictly after the deadline),
the callback never fires; with a non-empty condition list, whenever every
condition's polling has evaluated truthy (which can only happen at or
before the deadline), the callback has fired exactly once, and it never
fires more than once. -/
theorem pollerLite_shared_deadline (ctx : LiteCtx)
    (hT : 1 ≤ ctx.timeout) :
    (∀ j < ctx.numConds, (∀ τ ≤ ctx.timeout, ctx.evalCond j τ = false) →
       ∀ n, (liteRun ctx n).cbCount = 0)
  ∧ (∀ n, 0 < ctx.numConds →
       (∀ i < ctx.numConds, i ∈ (liteRun ctx n).successfulConditions) →
       (liteRun ctx n).cbCount = 1)
  ∧ (∀ k, (liteRun ctx k).cbCount ≤ 1) := by
  refine ⟨?_, ?_, ?_⟩
  · intro j hj hfalse n
    have inv := liteRun_inv ctx n
    have hnotin : j ∉ (liteRun ctx n).successfulConditions := by
      intro hmem
      obtain ⟨τ, hτtrue, hτle⟩ := inv.succ_eval j hmem
      have : ctx.evalCond j τ = false := hfalse τ (hτle (by omega))
      rw [this] at hτtrue
      exact Bool.false_ne_true hτtrue
    have hlen : (liteRun ctx n).successfulConditions.length < ctx.numConds :=
      nodup_length_lt _ ctx.numConds j inv.succ_nodup inv.succ_lt hj hnotin
    rw [inv.cb_eq, if_neg (by omega)]
  · intro n hN hall
    have inv := liteRun_inv ctx n
    have hlen : (liteRun ctx n).successfulConditions.length = ctx.numConds :=
      nodup_length_of_full _ ctx.numConds inv.succ_nodup inv.succ_lt hall
    rw [inv.cb_eq, if_pos ⟨hN, hlen⟩]
  · intro k
    have inv := liteRun_inv ctx k
    rw [inv.cb_eq]
    split <;> omega

theorem pollerLite_shared_deadline_witness :
    (1 : Nat) ≤ 1
  ∧ (liteRun
      { numConds := 1, evalCond := fun _ t => decide (2 ≤ t), wait := 1,
        mult := fun d => d, timeout := 1 } 5).cbCount = 0
  ∧ (liteRun
      { numConds := 1, evalCond := fun _ _ => true, wait := 1,
        mult := fun d => d, timeout := 1 } 0).cbCount = 1 :=
  ⟨by decide,
   (pollerLite_shared_deadline
      { numConds := 1, evalCond := fun _ t => decide (2 ≤ t), wait := 1,
        mult := fun d => d, timeout := 1 } (by decide)).1 0 (by decide)
     (by decide) 5,
   (pollerLite_shared_deadline
      { numConds := 1, evalCond := fun _ _ => true, wait := 1,
        mult := fun d => d, timeout := 1 } (by decide)).2.1 0 (by decide)
     (by decide)⟩

/-! ### The full poller: list helpers and the initial state -/

theorem mapRange_getElem {α : Type} (n i : Nat) (f : Nat → α) :
    ((List.range n).map f)[i]? = if i < n then some (f i) else none := by
  rw [List.getElem?_map]
  by_cases h : i < n
  · rw [List.getElem?_range h, if_pos h]
    rfl
  · rw [if_neg h, List.getElem?_eq_none (by simpa using Nat.le_of_not_lt h)]
    rfl

theorem mapRange_getD {α : Type} (n i : Nat) (f : Nat → α) (d : α) :
    ((List.range n).map f).getD i d = if i < n then f i else d := by
  rw [List.getD_eq_getElem?_getD, mapRange_getElem]
  by_cases h : i < n
  · rw [if_pos h, if_pos h]
    rfl
  · rw [if_neg h, if_neg h]
    rfl

theorem mapRange_set {α : Type} (n j : Nat) (f : Nat → α) (v : α)
    (hj : j < n) :
    ((List.range n).map f).set j v =
      (List.range n).map (fun i => if i = j then v else f i) := by
  apply List.ext_getElem?
  intro i
  by_cases hij : j = i
  · subst hij
    rw [List.getElem?_set_self (by simpa using hj), mapRange_getElem,
      if_pos hj, if_pos rfl]
  · rw [List.getElem?_set_ne hij, mapRange_getElem, mapRange_getElem]
    by_cases hi : i < n
    · rw [if_pos hi, if_pos hi, if_neg (fun h => hij h.symm)]
    · rw [if_neg hi, if_neg hi]

theorem getD_set_self {α : Type} (l : List α) (i : Nat) (v d : α)
    (h : i < l.length) : (l.set i v).getD i d = v := by
  rw [List.getD_eq_getElem?_getD, List.getElem?_set_self (by simpa using h)]
  rfl

theorem getD_set_ne {α : Type} (l : List α) (i j : Nat) (v d : α)
    (h : i ≠ j) : (l.set i v).getD j d = l.getD j d := by
  rw [List.getD_eq_getElem?_getD, List.getElem?_set_ne h,
    ← List.getD_eq_getElem?_getD]

theorem set_getD_self {α : Type} (l : List α) (i : Nat) (d : α)
    (h : i < l.length) : l.set i (l.getD i d) = l := by
  apply List.ext_getElem?
  intro j
  by_cases hij : i = j
  · subst hij
    rw [List.getElem?_set_self (by simpa using h),
      List.getD_eq_getElem?_getD, List.getElem?_eq_getElem h]
    rfl
  · rw [List.getElem?_set_ne hij]

theorem pollCall_started (ctx : PollerCtx) (s : PollerState)
    (i delay now : Nat) (e : ElemState)
    (he : s.elems.getD i { startedAt := none, winTimeout := none } = e)
    (hs : e.startedAt = some 0) :
    pollCall ctx s i delay now =
      if ctx.maxDuration ≠ 0 ∧ ctx.maxDuration < now then
        { s with elems := s.elems.set i e,
                 timeoutEvents := s.timeoutEvents ++ [i],
                 tasks := s.tasks.filter
                   (fun t => decide (e.winTimeout ≠ some t.timerId)) }
      else
        { s with elems := s.elems.set i { e with winTimeout := some s.nextId },
                 tasks := s.tasks ++
                   [{ elemIdx := i, fireTime := now + delay, delay := delay,
                      timerId := s.nextId }],
                 nextId := s.nextId + 1 } := by
  unfold pollCall
  rw [he]
  simp only [hs, Option.isNone_some, Bool.false_eq_true, if_false,
    Option.getD_some, Nat.zero_add]

theorem pollCall_fresh (ctx : PollerCtx) (s : PollerState) (i delay : Nat)
    (e : ElemState)
    (he : s.elems.getD i { startedAt := none, winTimeout := none } = e)
    (hs : e.startedAt = none) :
    pollCall ctx s i delay 0 =
      { s with elems := s.elems.set i
                 { startedAt := some 0, winTimeout := some s.nextId },
               tasks := s.tasks ++
                 [{ elemIdx := i, fireTime := delay, delay := delay,
                    timerId := s.nextId }],
               nextId := s.nextId + 1 } := by
  unfold pollCall
  rw [he]
  have hnot : ¬(ctx.maxDuration ≠ 0 ∧ ctx.maxDuration < 0) := by
    rintro ⟨_, h2⟩
    omega
  simp only [hs, Option.isNone_none, if_true, Option.getD_some,
    Nat.zero_add, if_neg hnot]

/-- Closed form of the synchronous start of a `poller` session: every
element starts at time `0` with timer id equal to its index, one pending
check per element due at `wait`. -/
theorem pollerInit_eq (ctx : PollerCtx) :
    pollerInit ctx =
      { elems := (List.range ctx.numConds).map
          (fun i => { startedAt := some 0, winTimeout := some i }),
        tasks := (List.range ctx.numConds).map
          (fun i => { elemIdx := i, fireTime := ctx.wait, delay := ctx.wait,
                      timerId := i }),
        succeededElems := [], timeoutEvents := [], cbCount := 0,
        nextId := ctx.numConds } := by
  have key : ∀ j ≤ ctx.numConds,
      (List.range j).foldl (fun s i => pollCall ctx s i ctx.wait 0)
        { elems := List.replicate ctx.numConds
            { startedAt := none, winTimeout := none },
          tasks := [], succeededElems := [], timeoutEvents := [],
          cbCount := 0, nextId := 0 } =
      { elems := (List.range ctx.numConds).map
          (fun i => if i < j then { startedAt := some 0, winTimeout := some i }
                    else { startedAt := none, winTimeout := none }),
        tasks := (List.range j).map
          (fun i => { elemIdx := i, fireTime := ctx.wait, delay := ctx.wait,
                      timerId := i }),
        succeededElems := [], timeoutEvents := [], cbCount := 0,
        nextId := j } := by
    intro j
    induction j with
    | zero =>
      intro _
      rw [List.range_zero, List.foldl_nil, List.map_nil]
      have h1 : List.map
          (fun i => if i < 0 then
              ({ startedAt := some 0, winTimeout := some i } : ElemState)
            else { startedAt := none, winTimeout := none })
          (List.range ctx.numConds) =
          List.map (fun _ => ({ startedAt := none, winTimeout := none } :
            ElemState)) (List.range ctx.numConds) :=
        List.map_congr_left (fun i _ => if_neg (by omega))
      have h2 : List.map (fun _ => ({ startedAt := none, winTimeout := none } :
          ElemState)) (List.range ctx.numConds) =
          List.replicate ctx.numConds
            { startedAt := none, winTimeout := none } := by
        rw [List.map_const', List.length_range]
      rw [h1, h2]
    | succ j ih =>
      intro hj
      rw [List.range_succ, List.foldl_append, List.foldl_cons, List.foldl_nil,
        ih (by omega)]
      rw [pollCall_fresh ctx _ j ctx.wait
        { startedAt := none, winTimeout := none }
        (by rw [mapRange_getD, if_pos (by omega), if_neg (by omega)]) rfl]
      simp only
      congr 1
      · rw [mapRange_set ctx.numConds j _ _ (by omega)]
        apply List.map_congr_left
        intro i hi
        by_cases hij : i = j
        · subst hij
          rw [if_pos rfl, if_pos (by omega)]
        · rw [if_neg hij]
          by_cases hlt : i < j
          · rw [if_pos hlt, if_pos (by omega)]
          · rw [if_neg hlt, if_neg (by omega)]
      · rw [List.map_append, List.map_cons, List.map_nil]
  have := key ctx.numConds (Nat.le_refl _)
  rw [pollerInit, this]
  congr 1
  apply List.map_congr_left
  intro i hi
  rw [if_pos (List.mem_range.mp hi)]

theorem getD_mem {α : Type} (l : List α) (i : Nat) (d : α)
    (h : i < l.length) : l.getD i d ∈ l := by
  rw [List.getD_eq_getElem?_getD, List.getElem?_eq_getElem h]
  exact List.getElem_mem h

theorem pollerInit_inv (ctx : PollerCtx) : PollerInv ctx (pollerInit ctx) := by
  rw [pollerInit_eq]
  refine ⟨?_, ?_, ?_, ?_, ?_, ?_, ?_, ?_, ?_, ?_, ?_, ?_, ?_, ?_, ?_, ?_, ?_⟩
  · simp
  · intro t ht
    obtain ⟨i, hi, rfl⟩ := List.mem_map.mp ht
    simpa using List.mem_range.mp hi
  · rw [List.map_map]
    have : (PollTask.elemIdx ∘ fun i =>
        ({ elemIdx := i, fireTime := ctx.wait, delay := ctx.wait,
           timerId := i } : PollTask)) = id := rfl
    rw [this, List.map_id]
    exact List.nodup_range _
  · rw [List.map_map]
    have : (PollTask.timerId ∘ fun i =>
        ({ elemIdx := i, fireTime := ctx.wait, delay := ctx.wait,
           timerId := i } : PollTask)) = id := rfl
    rw [this, List.map_id]
    exact List.nodup_range _
  · intro t ht
    obtain ⟨i, hi, rfl⟩ := List.mem_map.mp ht
    simpa using List.mem_range.mp hi
  · intro t _
    exact ⟨List.not_mem_nil _, List.not_mem_nil _⟩
  · intro i hi _ _
    exact ⟨_, List.mem_map_of_mem _ (List.mem_range.mpr hi), rfl⟩
  · intro t ht
    obtain ⟨i, hi, rfl⟩ := List.mem_map.mp ht
    rw [mapRange_getD, if_pos (List.mem_range.mp hi)]
  · exact List.nodup_nil
  · simp
  · exact List.nodup_nil
  · simp
  · simp
  · simp only [List.length_nil]
    rw [if_neg (by omega)]
  · intro e he
    obtain ⟨i, hi, rfl⟩ := List.mem_map.mp he
    rfl
  · simp
  · intro hw _ t ht
    obtain ⟨i, hi, rfl⟩ := List.mem_map.mp ht
    simpa using hw

theorem fireTask_succeed (ctx : PollerCtx) (s : PollerState) (t : PollTask)
    (he : ctx.evalCond t.elemIdx t.fireTime = true) :
    fireTask ctx s t =
      { s with succeededElems := s.succeededElems ++ [t.elemIdx],
               cbCount :=
                 if (s.succeededElems ++ [t.elemIdx]).length = ctx.numConds
                 then s.cbCount + 1 else s.cbCount } := by
  unfold fireTask
  rw [if_pos he]

theorem fireTask_repoll (ctx : PollerCtx) (s : PollerState) (t : PollTask)
    (he : ctx.evalCond t.elemIdx t.fireTime = false) :
    fireTask ctx s t = pollCall ctx s t.elemIdx (ctx.mult t.delay) t.fireTime := by
  unfold fireTask
  rw [if_neg (by rw [he]; exact Bool.false_ne_true)]

theorem pollerStep_inv (ctx : PollerCtx) (s : PollerState)
    (inv : PollerInv ctx s) : PollerInv ctx (pollerStep ctx s) := by
  unfold pollerStep
  cases hx : extractMin (fun t => t.fireTime) s.tasks with
  | none => exact inv
  | some p =>
    obtain ⟨t, rest⟩ := p
    have hperm := extractMin_perm (fun t => t.fireTime) s.tasks t rest hx
    have hmemt : t ∈ s.tasks := hperm.mem_iff.mpr (List.mem_cons_self t rest)
    have hrest : ∀ x ∈ rest, x ∈ s.tasks :=
      fun x hxr => hperm.mem_iff.mpr (List.mem_cons_of_mem t hxr)
    have hmapidx : (t.elemIdx :: rest.map PollTask.elemIdx).Nodup := by
      have h1 := ((hperm.map PollTask.elemIdx).nodup_iff).mp inv.task_idx_nodup
      rwa [List.map_cons] at h1
    have hmapid : (t.timerId :: rest.map PollTask.timerId).Nodup := by
      have h1 := ((hperm.map PollTask.timerId).nodup_iff).mp inv.task_id_nodup
      rwa [List.map_cons] at h1
    have hidx_notin : t.elemIdx ∉ rest.map PollTask.elemIdx :=
      (List.nodup_cons.mp hmapidx).1
    have hid_notin : t.timerId ∉ rest.map PollTask.timerId :=
      (List.nodup_cons.mp hmapid).1
    have htlt : t.elemIdx < ctx.numConds := inv.task_idx_lt t hmemt
    have htact := inv.task_active t hmemt
    have hrest_i : ∀ i, i < ctx.numConds → i ∉ s.succeededElems →
        i ∉ s.timeoutEvents → i ≠ t.elemIdx → ∃ x ∈ rest, x.elemIdx = i := by
      intro i hilt hs1 hs2 hne
      obtain ⟨x, hxmem, hxi⟩ := inv.active_task i hilt hs1 hs2
      rcases List.mem_cons.mp (hperm.mem_iff.mp hxmem) with hxt | hxr
      · exact absurd (hxt ▸ hxi).symm hne
      · exact ⟨x, hxr, hxi⟩
    show PollerInv ctx (fireTask ctx { s with tasks := rest } t)
    cases he : ctx.evalCond t.elemIdx t.fireTime with
    | true =>
      rw [fireTask_succeed ctx _ t he]
      simp only
      have hnotsucc : t.elemIdx ∉ s.succeededElems := htact.1
      have hnd : (s.succeededElems ++ [t.elemIdx]).Nodup :=
        List.nodup_append.mpr ⟨inv.succ_nodup, List.nodup_singleton _, by
          intro a ha hb
          simp at hb
          subst hb
          exact hnotsucc ha⟩
      have hlenlt : s.succeededElems.length < ctx.numConds :=
        nodup_length_lt s.succeededElems ctx.numConds t.elemIdx
          inv.succ_nodup inv.succ_lt htlt hnotsucc
      refine ⟨inv.elems_len, ?_, (List.nodup_cons.mp hmapidx).2,
        (List.nodup_cons.mp hmapid).2, ?_, ?_, ?_, ?_, hnd, ?_,
        inv.timeout_nodup, inv.timeout_lt, ?_, ?_, inv.started_zero, ?_, ?_⟩
      · intro x hxr
        exact inv.task_idx_lt x (hrest x hxr)
      · intro x hxr
        exact inv.task_id_lt x (hrest x hxr)
      · intro x hxr
        refine ⟨?_, (inv.task_active x (hrest x hxr)).2⟩
        intro hmem
        rcases List.mem_append.mp hmem with hmem | hmem
        · exact (inv.task_active x (hrest x hxr)).1 hmem
        · simp at hmem
          exact hidx_notin (hmem ▸ List.mem_map_of_mem PollTask.elemIdx hxr)
      · intro i hi hs1 hs2
        have hne : i ≠ t.elemIdx := by
          intro heq
          exact hs1 (by rw [heq]; exact List.mem_append_right _ (by simp))
        exact hrest_i i hi (fun hm => hs1 (List.mem_append_left _ hm)) hs2 hne
      · intro x hxr
        exact inv.task_win x (hrest x hxr)
      · intro i hi
        rcases List.mem_append.mp hi with hm | hm
        · exact inv.succ_lt i hm
        · simp at hm
          subst hm
          exact htlt
      · intro i hi
        rcases List.mem_append.mp hi with hm | hm
        · exact inv.succ_timeout_disjoint i hm
        · simp at hm
          subst hm
          exact htact.2
      · rw [inv.cb_eq, List.length_append, List.length_singleton]
        by_cases hN : s.succeededElems.length + 1 = ctx.numConds
        · rw [if_pos hN, if_neg (by omega), if_pos (by omega)]
        · rw [if_neg hN, if_neg (by omega), if_neg (by omega)]
      · intro i hi
        rcases List.mem_append.mp hi with hm | hm
        · exact inv.succ_eval i hm
        · simp at hm
          subst hm
          exact ⟨t.fireTime, he⟩
      · intro hw hm x hxr
        exact inv.delay_pos hw hm x (hrest x hxr)
    | false =>
      rw [fireTask_repoll ctx _ t he]
      have hlen_e : t.elemIdx < s.elems.length := by
        rw [inv.elems_len]
        exact htlt
      set e := s.elems.getD t.elemIdx { startedAt := none, winTimeout := none }
        with hedef
      have he_mem : e ∈ s.elems := getD_mem _ _ _ hlen_e
      have hstarted : e.startedAt = some 0 := inv.started_zero e he_mem
      have hwin : e.winTimeout = some t.timerId := inv.task_win t hmemt
      rw [pollCall_started ctx { s with tasks := rest } t.elemIdx
        (ctx.mult t.delay) t.fireTime e hedef.symm hstarted]
      by_cases hto : ctx.maxDuration ≠ 0 ∧ ctx.maxDuration < t.fireTime
      · rw [if_pos hto]
        simp only
        have hsetself : s.elems.set t.elemIdx e = s.elems := by
          rw [hedef]
          exact set_getD_self _ _ _ hlen_e
        have hfilter : rest.filter
            (fun x => decide (e.winTimeout ≠ some x.timerId)) = rest := by
          apply List.filter_eq_self.mpr
          intro x hxr
          rw [hwin]
          refine decide_eq_true ?_
          intro hco
          have := Option.some.inj hco
          exact hid_notin (this ▸ List.mem_map_of_mem PollTask.timerId hxr)
        rw [hsetself, hfilter]
        have hnotto : t.elemIdx ∉ s.timeoutEvents := htact.2
        refine ⟨inv.elems_len, ?_, (List.nodup_cons.mp hmapidx).2,
          (List.nodup_cons.mp hmapid).2, ?_, ?_, ?_, ?_, inv.succ_nodup,
          inv.succ_lt, ?_, ?_, ?_, inv.cb_eq, inv.started_zero,
          inv.succ_eval, ?_⟩
        · intro x hxr
          exact inv.task_idx_lt x (hrest x hxr)
        · intro x hxr
          exact inv.task_id_lt x (hrest x hxr)
        · intro x hxr
          refine ⟨(inv.task_active x (hrest x hxr)).1, ?_⟩
          intro hmem
          rcases List.mem_append.mp hmem with hmem | hmem
          · exact (inv.task_active x (hrest x hxr)).2 hmem
          · simp at hmem
            exact hidx_notin (hmem ▸ List.mem_map_of_mem PollTask.elemIdx hxr)
        · intro i hi hs1 hs2
          have hne : i ≠ t.elemIdx := by
            intro heq
            exact hs2 (by rw [heq]; exact List.mem_append_right _ (by simp))
          exact hrest_i i hi hs1 (fun hm => hs2 (List.mem_append_left _ hm)) hne
        · intro x hxr
          exact inv.task_win x (hrest x hxr)
        · exact List.nodup_append.mpr ⟨inv.timeout_nodup,
            List.nodup_singleton _, by
              intro a ha hb
              simp at hb
              subst hb
              exact hnotto ha⟩
        · intro i hi
          rcases List.mem_append.mp hi with hm | hm
          · exact inv.timeout_lt i hm
          · simp at hm
            subst hm
            exact htlt
        · intro i hi
          intro hmem
          rcases List.mem_append.mp hmem with hm | hm
          · exact inv.succ_timeout_disjoint i hi hm
          · simp at hm
            subst hm
            exact htact.1 hi
        · intro hw hm x hxr
          exact inv.delay_pos hw hm x (hrest x hxr)
      · rw [if_neg hto]
        simp only
        have hnew_lt : ∀ x, x ∈ rest → x.timerId < s.nextId :=
          fun x hxr => inv.task_id_lt x (hrest x hxr)
        refine ⟨?_, ?_, ?_, ?_, ?_, ?_, ?_, ?_, inv.succ_nodup, inv.succ_lt,
          inv.timeout_nodup, inv.timeout_lt, inv.succ_timeout_disjoint,
          inv.cb_eq, ?_, inv.succ_eval, ?_⟩
        · rw [List.length_set]
          exact inv.elems_len
        · intro x hxm
          rcases List.mem_append.mp hxm with hm | hm
          · exact inv.task_idx_lt x (hrest x hm)
          · simp at hm
            subst hm
            exact htlt
        · rw [List.map_append]
          refine List.nodup_append.mpr ⟨(List.nodup_cons.mp hmapidx).2,
            by simp, ?_⟩
          intro a ha hb
          simp at hb
          subst hb
          exact hidx_notin ha
        · rw [List.map_append]
          refine List.nodup_append.mpr ⟨(List.nodup_cons.mp hmapid).2,
            by simp, ?_⟩
          intro a ha hb
          simp at hb
          subst hb
          obtain ⟨x, hxr, hxi⟩ := List.mem_map.mp ha
          exact absurd (hxi ▸ hnew_lt x hxr) (Nat.lt_irrefl s.nextId)
        · intro x hxm
          rcases List.mem_append.mp hxm with hm | hm
          · exact Nat.lt_succ_of_lt (hnew_lt x hm)
          · simp at hm
            subst hm
            exact Nat.lt_succ_self _
        · intro x hxm
          rcases List.mem_append.mp hxm with hm | hm
          · exact inv.task_active x (hrest x hm)
          · simp at hm
            subst hm
            exact htact
        · intro i hi hs1 hs2
          by_cases hne : i = t.elemIdx
          · subst hne
            exact ⟨{ elemIdx := t.elemIdx,
                     fireTime := t.fireTime + ctx.mult t.delay,
                     delay := ctx.mult t.delay, timerId := s.nextId },
                   List.mem_append_right _ (by simp), rfl⟩
          · obtain ⟨x, hxr, hxi⟩ := hrest_i i hi hs1 hs2 hne
            exact ⟨x, List.mem_append_left _ hxr, hxi⟩
        · intro x hxm
          rcases List.mem_append.mp hxm with hm | hm
          · have hne : x.elemIdx ≠ t.elemIdx := by
              intro heq
              exact hidx_notin (heq ▸ List.mem_map_of_mem PollTask.elemIdx hm)
            rw [getD_set_ne _ _ _ _ _ (fun h => hne h.symm)]
            exact inv.task_win x (hrest x hm)
          · simp at hm
            subst hm
            simp only
            rw [getD_set_self _ _ _ _ hlen_e]
        · intro e' he'
          rcases List.mem_or_eq_of_mem_set he' with hm | hm
          · exact inv.started_zero e' hm
          · subst hm
            exact hstarted
        · intro hw hm x hxm
          rcases List.mem_append.mp hxm with hmm | hmm
          · exact inv.delay_pos hw hm x (hrest x hmm)
          · simp at hmm
            subst hmm
            exact hm t.delay

theorem pollerRun_inv (ctx : PollerCtx) (n : Nat) :
    PollerInv ctx (pollerRun ctx n) := by
  induction n with
  | zero => exact pollerInit_inv ctx
  | succ n ih =>
    rw [pollerRun, Function.iterate_succ_apply']
    exact pollerStep_inv ctx _ ih

theorem pollerStep_empty (ctx : PollerCtx) (s : PollerState)
    (h : s.tasks = []) : pollerStep ctx s = s := by
  unfold pollerStep
  rw [h]
  rfl

theorem destroyAll_tasks (ctx : PollerCtx) (s : PollerState)
    (inv : PollerInv ctx s) : (destroyAll s).tasks = [] := by
  show s.tasks.filter _ = []
  apply List.filter_eq_nil_iff.mpr
  intro t ht
  have hwin := inv.task_win t ht
  have hlen : t.elemIdx < s.elems.length := by
    rw [inv.elems_len]
    exact inv.task_idx_lt t ht
  have hmem : s.elems.getD t.elemIdx { startedAt := none, winTimeout := none }
      ∈ s.elems := getD_mem _ _ _ hlen
  have hany : s.elems.any
      (fun e => decide (e.winTimeout = some t.timerId)) = true :=
    List.any_eq_true.mpr ⟨_, hmem, decide_eq_true hwin⟩
  simp [hany]

/-- C2: once `destroy()` has been called on the handle returned by
`poller`, the session state is frozen: every pending timer (including
timers already due at the moment of cancellation — in the single-threaded
event loop `clearTimeout` removes them all) is cancelled, so no further
event-loop turn changes the state, and in particular the success callback
count, the per-element success list and the timeout-callback list never
change after the `destroy()` call (which itself invokes no callback). -/
theorem poller_destroy_no_callbacks (ctx : PollerCtx) (n m : Nat) :
    (pollerStep ctx)^[m] (destroyAll (pollerRun ctx n))
      = destroyAll (pollerRun ctx n)
  ∧ (destroyAll (pollerRun ctx n)).cbCount = (pollerRun ctx n).cbCount
  ∧ (destroyAll (pollerRun ctx n)).succeededElems
      = (pollerRun ctx n).succeededElems
  ∧ (destroyAll (pollerRun ctx n)).timeoutEvents
      = (pollerRun ctx n).timeoutEvents := by
  refine ⟨?_, rfl, rfl, rfl⟩
  exact Function.iterate_fixed
    (pollerStep_empty ctx _ (destroyAll_tasks ctx _ (pollerRun_inv ctx n))) m

/-- C1: for a non-empty condition list, if by some point of the execution
every condition has evaluated truthy at least once (each such evaluation is
exactly what puts its element on the success list) and no element's
timeout callback has fired, then the aggregate success callback has run
exactly once; moreover at every point of every execution the callback has
run at most once, and it can only have run once all conditions have
evaluated truthy. -/
theorem poller_success_exactly_once (ctx : PollerCtx) (n : Nat)
    (hN : 0 < ctx.numConds)
    (hsucc : ∀ i < ctx.numConds, i ∈ (pollerRun ctx n).succeededElems)
    (_hnotimeout : ∀ i < ctx.numConds,
      i ∉ (pollerRun ctx n).timeoutEvents) :
    (pollerRun ctx n).cbCount = 1
  ∧ (∀ k, (pollerRun ctx k).cbCount ≤ 1)
  ∧ (∀ k, (pollerRun ctx k).cbCount = 1 →
      ∀ i < ctx.numConds, i ∈ (pollerRun ctx k).succeededElems) := by
  have inv := pollerRun_inv ctx n
  refine ⟨?_, ?_, ?_⟩
  · rw [inv.cb_eq, if_pos ⟨hN,
      nodup_length_of_full _ _ inv.succ_nodup inv.succ_lt hsucc⟩]
  · intro k
    have invk := pollerRun_inv ctx k
    rw [invk.cb_eq]
    split <;> omega
  · intro k hcb i hi
    have invk := pollerRun_inv ctx k
    rw [invk.cb_eq] at hcb
    by_cases hc : 0 < ctx.numConds ∧
        (pollerRun ctx k).succeededElems.length = ctx.numConds
    · exact nodup_full_of_length _ _ invk.succ_nodup invk.succ_lt hc.2 i hi
    · rw [if_neg hc] at hcb
      omega

theorem poller_success_exactly_once_witness :
    (0 : Nat) < 1
  ∧ (pollerRun
      { numConds := 1, evalCond := fun _ _ => true, wait := 1,
        mult := fun d => d, maxDuration := 0 } 1).cbCount = 1 :=
  ⟨by decide,
   (poller_success_exactly_once
      { numConds := 1, evalCond := fun _ _ => true, wait := 1,
        mult := fun d => d, maxDuration := 0 } 1
      (by decide) (by decide) (by decide)).1⟩

/-- C8 counterexample: with an empty condition list the `for` loop of
`poller` creates no polling element and schedules no timer, so the success
callback count stays `0` after session start and after any number of
event-loop turns — it does not fire on the next tick (or ever), refuting
the claim that it fires exactly once on the next tick. -/
theorem poller_empty_cex :
    (pollerInit
      { numConds := 0, evalCond := fun _ _ => true, wait := 50,
        mult := fun d => d, maxDuration := 0 }).cbCount = 0
  ∧ (pollerInit
      { numConds := 0, evalCond := fun _ _ => true, wait := 50,
        mult := fun d => d, maxDuration := 0 }).tasks = []
  ∧ (pollerRun
      { numConds := 0, evalCond := fun _ _ => true, wait := 50,
        mult := fun d => d, maxDuration := 0 } 5).cbCount = 0 := by
  refine ⟨rfl, rfl, ?_⟩
  decide

/-- C8 (amended): calling the full poller with an empty condition list
never invokes the success callback: no polling element is created, no
timer is ever scheduled, and `cb()` runs only inside some element's
success callback, so the state stays at its initial value forever. -/
theorem poller_empty_never_fires (ctx : PollerCtx) (h : ctx.numConds = 0)
    (n : Nat) :
    (pollerRun ctx n).cbCount = 0 ∧ (pollerRun ctx n).tasks = [] := by
  have htasks : (pollerInit ctx).tasks = [] := by
    rw [pollerInit_eq, h, List.range_zero]
    rfl
  have hfix : pollerRun ctx n = pollerInit ctx :=
    Function.iterate_fixed (pollerStep_empty ctx _ htasks) n
  constructor
  · rw [hfix, pollerInit_eq]
  · rw [hfix]
    exact htasks

theorem taskMeasure_pos (D : Nat) (t : PollTask) : 1 ≤ taskMeasure D t := by
  have h := Nat.min_le_right t.fireTime (D + 1)
  unfold taskMeasure
  omega

theorem stateMeasure_perm (D : Nat) (s : PollerState) (t : PollTask)
    (rest : List PollTask) (hperm : s.tasks.Perm (t :: rest)) :
    stateMeasure D s = taskMeasure D t + (rest.map (taskMeasure D)).sum := by
  unfold stateMeasure
  rw [(hperm.map (taskMeasure D)).sum_eq, List.map_cons, List.sum_cons]

theorem pollerStep_measure (ctx : PollerCtx) (s : PollerState)
    (inv : PollerInv ctx s) (hm : ∀ d, 1 ≤ ctx.mult d)
    (hD : 1 ≤ ctx.maxDuration) (hne : s.tasks ≠ []) :
    stateMeasure ctx.maxDuration (pollerStep ctx s) + 1
      ≤ stateMeasure ctx.maxDuration s := by
  unfold pollerStep
  cases hx : extractMin (fun t => t.fireTime) s.tasks with
  | none => exact absurd ((extractMin_eq_none _ _).mp hx) hne
  | some p =>
    obtain ⟨t, rest⟩ := p
    have hperm := extractMin_perm (fun t => t.fireTime) s.tasks t rest hx
    have hmeas := stateMeasure_perm ctx.maxDuration s t rest hperm
    have hmemt : t ∈ s.tasks := hperm.mem_iff.mpr (List.mem_cons_self t rest)
    have hpos := taskMeasure_pos ctx.maxDuration t
    show stateMeasure _ (fireTask ctx { s with tasks := rest } t) + 1 ≤ _
    cases he : ctx.evalCond t.elemIdx t.fireTime with
    | true =>
      rw [fireTask_succeed ctx _ t he]
      show (rest.map (taskMeasure ctx.maxDuration)).sum + 1 ≤ _
      omega
    | false =>
      rw [fireTask_repoll ctx _ t he]
      have hlen_e : t.elemIdx < s.elems.length := by
        rw [inv.elems_len]
        exact inv.task_idx_lt t hmemt
      set e := s.elems.getD t.elemIdx { startedAt := none, winTimeout := none }
        with hedef
      have hstarted : e.startedAt = some 0 :=
        inv.started_zero e (getD_mem _ _ _ hlen_e)
      rw [pollCall_started ctx { s with tasks := rest } t.elemIdx
        (ctx.mult t.delay) t.fireTime e hedef.symm hstarted]
      by_cases hto : ctx.maxDuration ≠ 0 ∧ ctx.maxDuration < t.fireTime
      · rw [if_pos hto]
        show ((rest.filter _).map (taskMeasure ctx.maxDuration)).sum + 1 ≤ _
        have hsub : ((rest.filter
            (fun x => decide (e.winTimeout ≠ some x.timerId))).map
              (taskMeasure ctx.maxDuration)).Sublist
            (rest.map (taskMeasure ctx.maxDuration)) :=
          (List.filter_sublist _).map _
        have hle := List.Sublist.sum_le_sum hsub (fun x _ => Nat.zero_le x)
        omega
      · rw [if_neg hto]
        have hft : t.fireTime ≤ ctx.maxDuration := by
          by_contra hc
          exact hto ⟨by omega, by omega⟩
        have hmd := hm t.delay
        have hm1 : min t.fireTime (ctx.maxDuration + 1) = t.fireTime :=
          Nat.min_eq_left (by omega)
        have hm2ge : t.fireTime + 1 ≤
            min (t.fireTime + ctx.mult t.delay) (ctx.maxDuration + 1) :=
          Nat.le_min.mpr ⟨by omega, by omega⟩
        have hμt : taskMeasure ctx.maxDuration t =
            ctx.maxDuration + 2 - t.fireTime := by
          unfold taskMeasure
          rw [hm1]
        have hμnew : taskMeasure ctx.maxDuration
            { elemIdx := t.elemIdx, fireTime := t.fireTime + ctx.mult t.delay,
              delay := ctx.mult t.delay, timerId := s.nextId } =
            ctx.maxDuration + 2 -
              min (t.fireTime + ctx.mult t.delay) (ctx.maxDuration + 1) := rfl
        show ((rest ++ [_]).map (taskMeasure ctx.maxDuration)).sum + 1 ≤ _
        rw [List.map_append, List.sum_append, List.map_cons, List.map_nil,
          List.sum_cons, List.sum_nil, hμnew]
        omega

theorem poller_measure_exhaust (ctx : PollerCtx) (hm : ∀ d, 1 ≤ ctx.mult d)
    (hD : 1 ≤ ctx.maxDuration) :
    ∀ (n : Nat) (s : PollerState), PollerInv ctx s →
      stateMeasure ctx.maxDuration s ≤ n →
      ((pollerStep ctx)^[n] s).tasks = [] := by
  intro n
  induction n with
  | zero =>
    intro s inv hle
    cases hts : s.tasks with
    | nil => simpa using hts
    | cons a l =>
      exfalso
      have h1 : 1 ≤ stateMeasure ctx.maxDuration s := by
        unfold stateMeasure
        rw [hts, List.map_cons, List.sum_cons]
        have := taskMeasure_pos ctx.maxDuration a
        omega
      omega
  | succ n ih =>
    intro s inv hle
    by_cases hts : s.tasks = []
    · rw [Function.iterate_fixed (pollerStep_empty ctx s hts)]
      exact hts
    · rw [Function.iterate_succ_apply]
      refine ih (pollerStep ctx s) (pollerStep_inv ctx s inv) ?_
      have := pollerStep_measure ctx s inv hm hD hts
      omega

theorem pollerInit_measure (ctx : PollerCtx) (hw : 1 ≤ ctx.wait) :
    stateMeasure ctx.maxDuration (pollerInit ctx)
      ≤ ctx.numConds * (ctx.maxDuration + 1) := by
  rw [pollerInit_eq]
  show (((List.range ctx.numConds).map _).map
    (taskMeasure ctx.maxDuration)).sum ≤ _
  rw [List.map_map]
  have hbound : ∀ x ∈ (List.range ctx.numConds).map
      ((taskMeasure ctx.maxDuration) ∘ fun i =>
        ({ elemIdx := i, fireTime := ctx.wait, delay := ctx.wait,
           timerId := i } : PollTask)), x ≤ ctx.maxDuration + 1 := by
    intro x hx
    obtain ⟨i, _, rfl⟩ := List.mem_map.mp hx
    show taskMeasure ctx.maxDuration _ ≤ _
    have hminge : 1 ≤ min ctx.wait (ctx.maxDuration + 1) :=
      Nat.le_min.mpr ⟨hw, by omega⟩
    have heq : taskMeasure ctx.maxDuration
        { elemIdx := i, fireTime := ctx.wait, delay := ctx.wait,
          timerId := i } =
        ctx.maxDuration + 2 - min ctx.wait (ctx.maxDuration + 1) := rfl
    show taskMeasure ctx.maxDuration
      { elemIdx := i, fireTime := ctx.wait, delay := ctx.wait,
        timerId := i } ≤ ctx.maxDuration + 1
    rw [heq]
    omega
  have hs := List.sum_le_card_nsmul _ _ hbound
  rwa [smul_eq_mul, List.length_map, List.length_range] at hs

/-- C4: for a `poller` session whose shared per-element bound
`maxDuration = D` is positive (with a positive initial delay and a backoff
that keeps delays positive), an element whose condition never evaluates
truthy receives exactly one `timeoutCallback` invocation: within
`numConds * (D + 1)` event-loop turns every pending timer is gone, the
element's timeout has fired exactly once, it never fires again (the state
is frozen from then on), at no point does a pending timer for that element
coexist with its timeout having fired, and the element never joins the
success tally. -/
theorem poller_element_timeout (ctx : PollerCtx) (j : Nat)
    (hj : j < ctx.numConds)
    (hD : 1 ≤ ctx.maxDuration)
    (hw : 1 ≤ ctx.wait)
    (hm : ∀ d, 1 ≤ ctx.mult d)
    (heval : ∀ τ, ctx.evalCond j τ = false) :
    (pollerRun ctx (ctx.numConds * (ctx.maxDuration + 1))).timeoutEvents.count j
      = 1
  ∧ (∀ k, (pollerRun ctx k).timeoutEvents.count j ≤ 1)
  ∧ (∀ k, j ∉ (pollerRun ctx k).succeededElems)
  ∧ (∀ k, j ∈ (pollerRun ctx k).timeoutEvents →
      ∀ t ∈ (pollerRun ctx k).tasks, t.elemIdx ≠ j)
  ∧ (∀ m, pollerRun ctx (ctx.numConds * (ctx.maxDuration + 1) + m)
      = pollerRun ctx (ctx.numConds * (ctx.maxDuration + 1))) := by
  have hnotsucc : ∀ k, j ∉ (pollerRun ctx k).succeededElems := by
    intro k hmem
    obtain ⟨τ, hτ⟩ := (pollerRun_inv ctx k).succ_eval j hmem
    rw [heval τ] at hτ
    exact Bool.false_ne_true hτ
  have hempty : (pollerRun ctx (ctx.numConds * (ctx.maxDuration + 1))).tasks
      = [] :=
    poller_measure_exhaust ctx hm hD _ (pollerInit ctx) (pollerInit_inv ctx)
      (pollerInit_measure ctx hw)
  have hjt : j ∈ (pollerRun ctx
      (ctx.numConds * (ctx.maxDuration + 1))).timeoutEvents := by
    by_contra hc
    obtain ⟨t, hmem, _⟩ := (pollerRun_inv ctx _).active_task j hj
      (hnotsucc _) hc
    rw [hempty] at hmem
    exact List.not_mem_nil t hmem
  refine ⟨?_, ?_, hnotsucc, ?_, ?_⟩
  · exact List.count_eq_one_of_mem (pollerRun_inv ctx _).timeout_nodup hjt
  · intro k
    exact List.nodup_iff_count_le_one.mp (pollerRun_inv ctx k).timeout_nodup j
  · intro k hmem t ht hidx
    exact ((pollerRun_inv ctx k).task_active t ht).2 (hidx ▸ hmem)
  · intro m
    show (pollerStep ctx)^[ctx.numConds * (ctx.maxDuration + 1) + m]
      (pollerInit ctx) = _
    rw [Nat.add_comm, Function.iterate_add_apply]
    exact Function.iterate_fixed (pollerStep_empty ctx _ hempty) m

theorem poller_element_timeout_witness :
    (0 : Nat) < 1
  ∧ (pollerRun
      { numConds := 1, evalCond := fun _ _ => false, wait := 1,
        mult := fun d => d + 1, maxDuration := 1 }
      (1 * (1 + 1))).timeoutEvents.count 0 = 1 :=
  ⟨by decide,
   (poller_element_timeout
      { numConds := 1, evalCond := fun _ _ => false, wait := 1,
        mult := fun d => d + 1, maxDuration := 1 } 0
      (by decide) (by decide) (by decide)
      (fun d => Nat.succ_le_succ (Nat.zero_le d))
      (fun τ => rfl)).1⟩

theorem poller_empty_never_fires_witness :
    ({ numConds := 0, evalCond := fun _ _ => true, wait := 50,
       mult := fun d => d, maxDuration := 0 } : PollerCtx).numConds = 0
  ∧ (pollerRun
      { numConds := 0, evalCond := fun _ _ => true, wait := 50,
        mult := fun d => d, maxDuration := 0 } 3).cbCount = 0 :=
  ⟨rfl,
   (poller_empty_never_fires
      { numConds := 0, evalCond := fun _ _ => true, wait := 50,
        mult := fun d => d, maxDuration := 0 } rfl 3).1⟩

end AbTestUtils
